import Mathlib

/-!
Verification development for the pull-request review payload pipeline of this
repository (`.github/scripts/build_review_payload.py`, whose link rewriting
replicates `.github/scripts/rewrite_review_links.py`).

Modelling conventions:
* Python strings are modelled as `List Char` (`Str` below).
* The `re` substitutions are modelled by hand-rolled left-to-right scanners
  with the backtracking behaviour of the concrete patterns resolved statically
  (each pattern is simple enough that greedy/lazy resolution is unambiguous;
  the resolution is documented at each matcher).
* Whitespace classes are modelled by their ASCII subsets; the sources never
  rely on non-ASCII whitespace.
-/

namespace ReviewPayload

abbrev Str := List Char

/-- Whitespace recognised by Python `str.strip()` / `str.lstrip()` and by the
`\s` class of the `re` module (ASCII subset: space, tab, newline, carriage
return, vertical tab, form feed). -/
def isPySpace (c : Char) : Bool :=
  c = ' ' || c = '\t' || c = '\n' || c = '\x0d' || c = '\x0b' || c = '\x0c'

/-- Line-boundary characters of Python `str.splitlines()`. -/
def isLineBreak (c : Char) : Bool :=
  c = '\n' || c = '\x0d' || c = '\x0b' || c = '\x0c' ||
  c = '\x1c' || c = '\x1d' || c = '\x1e' || c = '\u0085' || c = '\u2028' || c = '\u2029'

/-- Python `str.splitlines()`: split at line boundaries, treating `"\r\n"` as a
single boundary; a trailing boundary does not produce a final empty line.
The flag records whether the previous character was `'\x0d'`, so that a
following `'\n'` is swallowed rather than opening another line. -/
def pySplitlinesCore : Str → Bool → Str → List Str
  | [], _, acc => if acc.isEmpty then [] else [acc.reverse]
  | c :: rest, prevCR, acc =>
    if c = '\n' then
      if prevCR then pySplitlinesCore rest false acc
      else acc.reverse :: pySplitlinesCore rest false []
    else if isLineBreak c then acc.reverse :: pySplitlinesCore rest (c == '\x0d') []
    else pySplitlinesCore rest false (c :: acc)

def pySplitlines (s : Str) : List Str := pySplitlinesCore s false []

/-- `"\n".join(lines)`. -/
def joinNL : List Str → Str
  | [] => []
  | [l] => l
  | l :: l2 :: ls => l ++ '\n' :: joinNL (l2 :: ls)

def pyLstrip (s : Str) : Str := s.dropWhile isPySpace

def pyRstrip (s : Str) : Str := (s.reverse.dropWhile isPySpace).reverse

def pyStrip (s : Str) : Str := pyRstrip (pyLstrip s)

/-- Python `str.lstrip("./")`. -/
def lstripDotSlash (s : Str) : Str := s.dropWhile (fun c => c = '.' || c = '/')

def pyLower (s : Str) : Str := s.map Char.toLower

def pyUpper (s : Str) : Str := s.map Char.toUpper

/-- Case-insensitive `startswith`. -/
def ciIsPrefixOf (p s : Str) : Bool := (pyLower p).isPrefixOf (pyLower s)

def takeDigits (s : Str) : Str × Str := s.span (·.isDigit)

/-! ## Link rewriting: `_absolutize_location_links` -/

def styleRel : Str := "contribute/style-guide-extended.mdx".data

def httpsPrefix : Str := "https://".data

def httpPrefix : Str := "http://".data

def blobPrefix (repo : Str) : Str := "https://github.com/".data ++ repo ++ "/blob/".data

def docBlobPrefix (repo sha : Str) : Str :=
  blobPrefix repo ++ (if sha.isEmpty then "main".data else sha) ++ ['/']

def styleBlobPrefix (repo : Str) : Str := blobPrefix repo ++ "main/".data

/-- `absolutize_path` of `_absolutize_location_links` (identical to
`absolutize_location` of `rewrite_review_links.py`). -/
def absolutizePath (repo sha : Str) (p : Str) : Str :=
  if httpPrefix.isPrefixOf p || httpsPrefix.isPrefixOf p then p
  else
    let n := lstripDotSlash p
    (if styleRel.isPrefixOf n then styleBlobPrefix repo else docBlobPrefix repo sha) ++ n

/-- `stripped.partition(":")` restricted to the pieces the code uses:
(text before the first colon, text after it; both empty tails when absent). -/
def partitionColon (s : Str) : Str × Str :=
  match s.span (fun c => !(c = ':')) with
  | (a, []) => (a, [])
  | (a, _ :: b) => (a, b)

def locMarkers : List Str := ["- Location:".data, "Location:".data, "* Location:".data]

/-- Step 1 of `_absolutize_location_links`, applied per line: absolutize the
link of an explicit `Location:` line (with optional leading list marker). -/
def locLine (repo sha : Str) (line : Str) : Str :=
  let stripped := pyLstrip line
  let indent := line.length - stripped.length
  if locMarkers.any (fun m => m.isPrefixOf stripped) then
    let pr := partitionColon stripped
    let link := pyStrip pr.2
    if link.isEmpty then line
    else List.replicate indent ' ' ++ pr.1 ++ ':' :: ' ' :: absolutizePath repo sha link
  else line

/-- Character class `[A-Za-z0-9_./\-]` of the generic doc-link pattern. -/
def isPathChar (c : Char) : Bool :=
  c.isAlpha || c.isDigit || c = '_' || c = '.' || c = '/' || c = '-'

/-- The run ends in `.md`, `.mdx` or `.json` with at least one character in
front of the dot (the pattern is `[A-Za-z0-9_./\-]+\.(?:md|mdx|json)`). -/
def hasDocExt (run : Str) : Bool :=
  (".md".data.isSuffixOf run && decide (run.length > 3)) ||
  (".mdx".data.isSuffixOf run && decide (run.length > 4)) ||
  (".json".data.isSuffixOf run && decide (run.length > 5))

/-- Match `[A-Za-z0-9_./\-]+\.(?:md|mdx|json)\?plain=1#L\d+(?:-L\d+)?` at the
head of `cs`.  Returns (path run, `?plain=1#L...` suffix, total length).
The path run is the maximal `isPathChar` run (no shorter run can succeed
because `?` is not a path character). -/
def genericCore (cs : Str) : Option (Str × Str × Nat) :=
  let run := cs.takeWhile isPathChar
  if run.isEmpty then none
  else if !hasDocExt run then none
  else
    let rest := cs.drop run.length
    if "?plain=1#L".data.isPrefixOf rest then
      let d1p := takeDigits (rest.drop 10)
      if d1p.1.isEmpty then none
      else
        let optLen :=
          match d1p.2 with
          | '-' :: 'L' :: r4 =>
            let d2p := takeDigits r4
            if d2p.1.isEmpty then 0 else 2 + d2p.1.length
          | _ => 0
        let sfxLen := 10 + d1p.1.length + optLen
        some (run, rest.take sfxLen, run.length + sfxLen)
    else none

/-- One match attempt of the generic doc-link substitution
(`(?P<prefix>https?://)?(?P<path>...)…`): with the optional scheme prefix the
match is left unchanged; without it the path is absolutized.  If the scheme
matches but the rest fails, the engine backtracks to an empty prefix (which
then always fails since `http`/`https` cannot end in a doc extension, but we
model the backtracking faithfully). -/
def genericMatchAt (repo sha : Str) (cs : Str) : Option (Nat × Str) :=
  let withPrefix : Nat → Option (Nat × Str) := fun plen =>
    match genericCore (cs.drop plen) with
    | some (_, _, n) => some (plen + n, cs.take (plen + n))
    | none => none
  let noPrefix : Option (Nat × Str) :=
    match genericCore cs with
    | some (run, sfx, _) =>
      let p := lstripDotSlash run
      let base := if styleRel.isPrefixOf p then styleBlobPrefix repo else docBlobPrefix repo sha
      some (run.length + sfx.length, base ++ p ++ sfx)
    | none => none
  if httpsPrefix.isPrefixOf cs then (withPrefix 8).orElse (fun _ => noPrefix)
  else if httpPrefix.isPrefixOf cs then (withPrefix 7).orElse (fun _ => noPrefix)
  else noPrefix

/-- `re.sub` driver: scan left to right; at a match emit the replacement and
continue after the match, otherwise copy one character.  All matchers used
here consume at least one character; the fuel (initialised to the length of
the text) therefore never runs out. -/
def subScan (m : Str → Option (Nat × Str)) : Nat → Str → Str
  | 0, cs => cs
  | _ + 1, [] => []
  | fuel + 1, c :: rest =>
    match m (c :: rest) with
    | some nr => nr.2 ++ subScan m fuel ((c :: rest).drop nr.1)
    | none => c :: subScan m fuel rest

def pySub (m : Str → Option (Nat × Str)) (cs : Str) : Str := subScan m cs.length cs

/-- Match `contribute/style-guide-extended\.mdx\?plain=1#L\d+(?:-L\d+)?` at the
head of `cs`, returning the length of the match. -/
def styleMatchLen (cs : Str) : Option Nat :=
  if styleRel.isPrefixOf cs then
    let rest := cs.drop styleRel.length
    if "?plain=1#L".data.isPrefixOf rest then
      let d1p := takeDigits (rest.drop 10)
      if d1p.1.isEmpty then none
      else
        let optLen :=
          match d1p.2 with
          | '-' :: 'L' :: r4 =>
            let d2p := takeDigits r4
            if d2p.1.isEmpty then 0 else 2 + d2p.1.length
          | _ => 0
        some (styleRel.length + 10 + d1p.1.length + optLen)
    else none
  else none

/-- `replace_style_links`: for each occurrence of the style-guide pattern,
keep it if the original text immediately before it is exactly the style blob
prefix, otherwise prepend that prefix.  `seenRev` is the already-scanned part
of the original text, reversed (the Python code checks
`text[prefix_start:start]` against the original text). -/
def styleScanAux (repo : Str) : Nat → Str → Str → Str
  | 0, _, cs => cs
  | _ + 1, _, [] => []
  | fuel + 1, seenRev, c :: rest =>
    match styleMatchLen (c :: rest) with
    | some n =>
      let link := (c :: rest).take n
      let out :=
        if (styleBlobPrefix repo).reverse.isPrefixOf seenRev then link
        else styleBlobPrefix repo ++ lstripDotSlash link
      out ++ styleScanAux repo fuel (link.reverse ++ seenRev) ((c :: rest).drop n)
    | none => c :: styleScanAux repo fuel (c :: seenRev) rest

def styleScan (repo : Str) (cs : Str) : Str := styleScanAux repo cs.length [] cs

/-- One match attempt of the blob-URL revision fix
(`{blob_prefix}([^/]+)/([^\s)]+)` with `fix_doc` as replacement). -/
def fixDocMatchAt (repo sha : Str) (cs : Str) : Option (Nat × Str) :=
  let bp := blobPrefix repo
  if bp.isPrefixOf cs then
    let rest := cs.drop bp.length
    let base := rest.takeWhile (fun c => !(c = '/'))
    if base.isEmpty then none
    else
      match rest.drop base.length with
      | '/' :: rest2 =>
        let remainder := rest2.takeWhile (fun c => !(isPySpace c || c = ')'))
        if remainder.isEmpty then none
        else
          let n := bp.length + base.length + 1 + remainder.length
          let target := if styleRel.isPrefixOf remainder then "main".data else sha
          if base = target then some (n, cs.take n)
          else some (n, bp ++ target ++ '/' :: remainder)
      | _ => none
  else none

/-- `_absolutize_location_links(body, repo, sha)`; `repo = []` / `sha = []`
model Python `None` (the caller passes `repo or None` / `sha or None`). -/
def absolutizeLocationLinks (repo sha body : Str) : Str :=
  if body.isEmpty || repo.isEmpty then body
  else
    let s1 := joinNL ((pySplitlines body).map (locLine repo sha))
    let s2 := pySub (genericMatchAt repo sha) s1
    let s3 := styleScan repo s2
    if sha.isEmpty then s3 else pySub (fixDocMatchAt repo sha) s3

/-! ## Minimal JSON values and `json.loads` -/

/-- The JSON values `json.loads` can return.  Numbers are modelled as
integers; fractional or exponent literals are outside the modelled input
space (the parser rejects them). -/
inductive Json where
  | null
  | bool (b : Bool)
  | num (n : Int)
  | str (s : Str)
  | arr (xs : List Json)
  | obj (kvs : List (Str × Json))

def Json.isObj : Json → Bool
  | .obj _ => true
  | _ => false

def skipJsonWs (s : Str) : Str :=
  s.dropWhile (fun c => c = ' ' || c = '\t' || c = '\n' || c = '\x0d')

def hexVal (ch : Char) : Option Nat :=
  if ch.isDigit then some (ch.toNat - 48)
  else if 'a' ≤ ch && ch ≤ 'f' then some (ch.toNat - 87)
  else if 'A' ≤ ch && ch ≤ 'F' then some (ch.toNat - 55)
  else none

def parseHex4 : Str → Option (Nat × Str)
  | a :: b :: c :: d :: rest =>
    match hexVal a, hexVal b, hexVal c, hexVal d with
    | some x, some y, some z, some w => some (((x * 16 + y) * 16 + z) * 16 + w, rest)
    | _, _, _, _ => none
  | _ => none

/-- JSON string body after the opening quote.  Surrogate-pair recombination is
outside the modelled input space (a lone escape yields its code point). -/
def parseJStringAux : Nat → Str → Str → Option (Str × Str)
  | 0, _, _ => none
  | fuel + 1, acc, s =>
    match s with
    | [] => none
    | '"' :: rest => some (acc.reverse, rest)
    | '\\' :: e :: rest =>
      (match e with
       | '"' => parseJStringAux fuel ('"' :: acc) rest
       | '\\' => parseJStringAux fuel ('\\' :: acc) rest
       | '/' => parseJStringAux fuel ('/' :: acc) rest
       | 'b' => parseJStringAux fuel ('\x08' :: acc) rest
       | 'f' => parseJStringAux fuel ('\x0c' :: acc) rest
       | 'n' => parseJStringAux fuel ('\n' :: acc) rest
       | 'r' => parseJStringAux fuel ('\x0d' :: acc) rest
       | 't' => parseJStringAux fuel ('\t' :: acc) rest
       | 'u' =>
         (match parseHex4 rest with
          | some nr => parseJStringAux fuel (Char.ofNat nr.1 :: acc) nr.2
          | none => none)
       | _ => none)
    | c :: rest => if c.toNat < 32 then none else parseJStringAux fuel (c :: acc) rest

def digitsToNat (ds : Str) : Nat := ds.foldl (fun a c => a * 10 + (c.toNat - 48)) 0

/-- JSON number (integer literals only; a leading zero before further digits
and fractional/exponent forms are rejected). -/
def parseJNat (s : Str) : Option (Nat × Str) :=
  let dp := takeDigits s
  if dp.1.isEmpty then none
  else if decide (dp.1.length > 1) && dp.1.take 1 = ['0'] then none
  else
    match dp.2 with
    | '.' :: _ => none
    | 'e' :: _ => none
    | 'E' :: _ => none
    | _ => some (digitsToNat dp.1, dp.2)

mutual

def parseJValue : Nat → Str → Option (Json × Str)
  | 0, _ => none
  | fuel + 1, s0 =>
    match skipJsonWs s0 with
    | 'n' :: 'u' :: 'l' :: 'l' :: rest => some (.null, rest)
    | 't' :: 'r' :: 'u' :: 'e' :: rest => some (.bool true, rest)
    | 'f' :: 'a' :: 'l' :: 's' :: 'e' :: rest => some (.bool false, rest)
    | '"' :: rest =>
      (match parseJStringAux rest.length [] rest with
       | some p => some (.str p.1, p.2)
       | none => none)
    | '[' :: rest =>
      (match skipJsonWs rest with
       | ']' :: r2 => some (.arr [], r2)
       | r =>
         match parseJItems fuel r with
         | some p => some (.arr p.1, p.2)
         | none => none)
    | '\x7b' :: rest =>
      (match skipJsonWs rest with
       | '\x7d' :: r2 => some (.obj [], r2)
       | r =>
         match parseJMembers fuel r with
         | some p => some (.obj p.1, p.2)
         | none => none)
    | '-' :: rest =>
      (match parseJNat rest with
       | some p => some (.num (-(p.1 : Int)), p.2)
       | none => none)
    | c :: rest =>
      if c.isDigit then
        match parseJNat (c :: rest) with
        | some p => some (.num (p.1 : Int), p.2)
        | none => none
      else none
    | [] => none

def parseJItems : Nat → Str → Option (List Json × Str)
  | 0, _ => none
  | fuel + 1, s =>
    match parseJValue fuel s with
    | none => none
    | some vr =>
      match skipJsonWs vr.2 with
      | ',' :: r2 =>
        (match parseJItems fuel r2 with
         | some p => some (vr.1 :: p.1, p.2)
         | none => none)
      | ']' :: r2 => some ([vr.1], r2)
      | _ => none

def parseJMembers : Nat → Str → Option (List (Str × Json) × Str)
  | 0, _ => none
  | fuel + 1, s =>
    match skipJsonWs s with
    | '"' :: rest =>
      (match parseJStringAux rest.length [] rest with
       | none => none
       | some kr =>
         match skipJsonWs kr.2 with
         | ':' :: r3 =>
           (match parseJValue fuel r3 with
            | none => none
            | some vr =>
              match skipJsonWs vr.2 with
              | ',' :: r5 =>
                (match parseJMembers fuel r5 with
                 | some p => some ((kr.1, vr.1) :: p.1, p.2)
                 | none => none)
              | '\x7d' :: r5 => some ([(kr.1, vr.1)], r5)
              | _ => none)
         | _ => none)
    | _ => none

end

/-- `json.loads` (returns `none` on any parse error). -/
def jsonParse (s : Str) : Option Json :=
  match parseJValue (s.length + 1) s with
  | some vr => if (skipJsonWs vr.2).isEmpty then some vr.1 else none
  | none => none

/-! ## Python coercions on JSON values -/

def jTruthy : Json → Bool
  | .null => false
  | .bool b => b
  | .num n => decide (n ≠ 0)
  | .str s => !s.isEmpty
  | .arr xs => !xs.isEmpty
  | .obj kvs => !kvs.isEmpty

/-- `a or b`. -/
def jOr (a b : Json) : Json := if jTruthy a then a else b

/-- `d.get(key)` when `d` is known to be a dict (absent key gives `None`);
Python keeps the LAST binding of a duplicated key. -/
def jGet (j : Json) (key : Str) : Json :=
  match j with
  | .obj kvs => (((kvs.reverse.find? (fun kv => kv.1 == key)).map Prod.snd).getD .null)
  | _ => .null

/-- `d.get(key)` where a non-dict raises (used inside `try` blocks). -/
def jGetOpt (j : Json) (key : Str) : Option Json :=
  match j with
  | .obj _ => some (jGet j key)
  | _ => none

/-- `str(x)`.  The repr of containers is abstracted (no claim exercises it). -/
def pyStrOf : Json → Str
  | .null => "None".data
  | .bool true => "True".data
  | .bool false => "False".data
  | .num n => (toString n).data
  | .str s => s
  | .arr _ => "[...]".data
  | .obj _ => "\x7b...\x7d".data

/-- `int(s)` for a string argument. -/
def pyIntOfStr (s : Str) : Option Int :=
  let t := pyStrip s
  let core : Str → Option Int := fun ds =>
    if !ds.isEmpty && ds.all (·.isDigit) then some (digitsToNat ds) else none
  match t with
  | '+' :: ds => core ds
  | '-' :: ds => (core ds).map Neg.neg
  | ds => core ds

/-- `int(x)`; `none` models the `TypeError`/`ValueError` raise. -/
def jIntOpt : Json → Option Int
  | .num n => some n
  | .bool b => some (if b then 1 else 0)
  | .str s => pyIntOfStr s
  | _ => none

/-- `int(v)` succeeds: everything except a non-numeric string or a container
(those raise `ValueError`/`TypeError`). -/
def jIntReadable : Json → Bool
  | .str s => (pyIntOfStr s).isSome
  | .arr _ => false
  | .obj _ => false
  | _ => true

/-- The unguarded `int(it.get("start") or 0)` and `int(it.get("end") or 0)`
coercions on a trailer finding (lines 527-534 and 560-567) both succeed. -/
def trailerIntsOk (it : Json) : Bool :=
  jIntReadable (jOr (jGet it "start".data) (.num 0)) &&
  jIntReadable (jOr (jGet it "end".data) (.num 0))

/-! ## Fenced code blocks and JSON trailers -/

def isLangChar (c : Char) : Bool := c.isAlpha || c.isDigit || c = '_' || c = '-'

/-- Least index at which `pat` occurs in the text. -/
def findSubstr (pat : Str) : Str → Option Nat
  | [] => if pat.isEmpty then some 0 else none
  | s@(_ :: rest) =>
    if pat.isPrefixOf s then some 0 else (findSubstr pat rest).map (· + 1)

/-- Index of the last newline of a whitespace run (greedy `\s*` before `\n`). -/
def lastNewlineIdx (w : Str) : Option Nat :=
  (w.reverse.findIdx? (· = '\n')).map (fun k => w.length - 1 - k)

/-- One match attempt of `` ```([a-zA-Z0-9_-]*)\s*\n([\s\S]*?)\n``` `` at the
head of the text: maximal language run, then a whitespace run that must
contain a newline (the greedy `\s*` ends at its last newline), then the lazy
body up to the first `` \n``` ``. -/
def codeBlockMatchAt (cs : Str) : Option (Str × Str) :=
  if "```".data.isPrefixOf cs then
    let rest0 := cs.drop 3
    let lang := rest0.takeWhile isLangChar
    let rest1 := rest0.drop lang.length
    let w := rest1.takeWhile isPySpace
    match lastNewlineIdx w with
    | none => none
    | some i =>
      let tail := rest1.drop (i + 1)
      match findSubstr "\n```".data tail with
      | none => none
      | some k => some (lang, tail.take k)
  else none

/-- `_extract_first_code_block` (re.search semantics: first start position
that admits a match). -/
def extractFirstCodeBlock : Str → Option (Str × Str)
  | [] => none
  | s@(_ :: rest) =>
    match codeBlockMatchAt s with
    | some r => some (pyLower (pyStrip r.1), r.2)
    | none => extractFirstCodeBlock rest

/-- `\s*$` under `re.MULTILINE` combined with a preceding greedy `\s*`:
the match extends to the end of the text if the remainder is all whitespace,
otherwise to the position of the last newline inside the leading whitespace
run.  Returns the number of characters consumed. -/
def trailingWsConsumed (u : Str) : Option Nat :=
  let w := u.takeWhile isPySpace
  if (u.drop w.length).isEmpty then some w.length
  else lastNewlineIdx w

/-- Scan for the lazy closing `\}` of the trailer pattern: the least index `k`
with `t[k] = '\x7d'` whose continuation matches `` \s*```\s*$ `` (multiline).
Returns `(k, length consumed after k)`. -/
def tjFindCloseAux : Str → Nat → Option (Nat × Nat)
  | [], _ => none
  | c :: rest, k =>
    if c = '\x7d' then
      let w := rest.takeWhile isPySpace
      if "```".data.isPrefixOf (rest.drop w.length) then
        match trailingWsConsumed (rest.drop (w.length + 3)) with
        | some j => some (k, w.length + 3 + j)
        | none => tjFindCloseAux rest (k + 1)
      else tjFindCloseAux rest (k + 1)
    else tjFindCloseAux rest (k + 1)

/-- One match attempt of `_TRAILER_JSON_RE`
(`` ```json\s*(\{[\s\S]*?\})\s*```\s*$ ``, IGNORECASE | MULTILINE) at the head
of the text.  Returns (total match length, the braced group). -/
def trailerMatchAt (cs : Str) : Option (Nat × Str) :=
  if ciIsPrefixOf "```json".data cs then
    let rest := cs.drop 7
    let w := rest.takeWhile isPySpace
    match rest.drop w.length with
    | '\x7b' :: t =>
      (match tjFindCloseAux t 0 with
       | some ke =>
         some (7 + w.length + 1 + ke.1 + 1 + ke.2,
               '\x7b' :: (t.take ke.1 ++ ['\x7d']))
       | none => none)
    | _ => none
  else none

/-- `_TRAILER_JSON_RE.sub("", s)`. -/
def removeJsonTrailers (s : Str) : Str :=
  pySub (fun cs => (trailerMatchAt cs).map (fun p => (p.1, ([] : Str)))) s

/-- `_strip_trailing_json_trailer`: remove every trailer match, then rstrip. -/
def stripTrailingJsonTrailer (s : Str) : Str := pyRstrip (removeJsonTrailers s)

/-- Strip every fenced code block (`_FENCED_BLOCK_RE.sub("", …)`); the pattern
`` ```[a-zA-Z0-9_-]*\s*\n[\s\S]*?\n``` `` is the full-match version of
`codeBlockMatchAt`. -/
def fencedBlockMatchAt (cs : Str) : Option (Nat × Str) :=
  if "```".data.isPrefixOf cs then
    let rest0 := cs.drop 3
    let lang := rest0.takeWhile isLangChar
    let rest1 := rest0.drop lang.length
    let w := rest1.takeWhile isPySpace
    match lastNewlineIdx w with
    | none => none
    | some i =>
      let tail := rest1.drop (i + 1)
      match findSubstr "\n```".data tail with
      | none => none
      | some k => some (3 + lang.length + (i + 1) + k + 4, [])
  else none

def stripFencedBlocks (s : Str) : Str := pySub fencedBlockMatchAt s

/-- First trailer match group anywhere in the text (re.search). -/
def searchTrailerGroup : Str → Option Str
  | [] => none
  | s@(_ :: rest) =>
    match trailerMatchAt s with
    | some p => some p.2
    | none => searchTrailerGroup rest

/-- `_parse_trailer_findings`: the `findings` list of the parsed trailer
object, keeping only dict entries; empty on any failure. -/
def parseTrailerFindings (md : Str) : List Json :=
  match searchTrailerGroup md with
  | none => []
  | some g =>
    match jsonParse g with
    | some j =>
      if j.isObj then
        match jGet j "findings".data with
        | .arr xs => xs.filter Json.isObj
        | _ => []
      else []
    | none => []

/-- `\s*$` without `re.MULTILINE`: the remainder is all whitespace. -/
def heurTailOk (u : Str) : Bool := (u.dropWhile isPySpace).isEmpty

def heurFindClose : Str → Bool
  | [] => false
  | c :: rest =>
    (c = '\x7d' &&
      (let w := rest.takeWhile isPySpace
       "```".data.isPrefixOf (rest.drop w.length) && heurTailOk (rest.drop (w.length + 3)))) ||
    heurFindClose rest

def heurMatchFrom (cs : Str) : Bool :=
  if ciIsPrefixOf "```json".data cs then
    match (cs.drop 7).drop ((cs.drop 7).takeWhile isPySpace).length with
    | '\x7b' :: t => heurFindClose t
    | _ => false
  else false

/-- The heuristic `re.search(r"```json\s*\{[\s\S]*\}\s*```\s*$", fm)` used to
classify untagged records as validators. -/
def endsWithJsonTrailer : Str → Bool
  | [] => false
  | s@(_ :: rest) => heurMatchFrom s || endsWithJsonTrailer rest

/-! ## Finding records and the markdown findings parser -/

structure Finding where
  severity : Str
  title : Str
  path : Str
  start : Int
  endL : Int
  desc : Str
  suggestionRaw : Str
  suggestionReplacement : Option Str
  uid : Option Str
deriving Repr, DecidableEq

def isWordChar (c : Char) : Bool := c.isAlpha || c.isDigit || c = '_'

def collapseNonWordAux : Bool → Str → Str
  | _, [] => []
  | prevNW, c :: rest =>
    if isWordChar c then c :: collapseNonWordAux false rest
    else if prevNW then collapseNonWordAux true rest
    else ' ' :: collapseNonWordAux true rest

/-- `re.sub(r"\W+", " ", t)` (ASCII word characters). -/
def collapseNonWord (s : Str) : Str := collapseNonWordAux false s

/-- `Finding.key`: (path, start, end, normalised lowercased title). -/
def Finding.key (f : Finding) : Str × Int × Int × Str :=
  (f.path, f.start, f.endL, pyLower (pyStrip (collapseNonWord f.title)))

def sevWords : List Str := ["HIGH".data, "MEDIUM".data, "LOW".data]

/-- `_H_RE`: `^###\s*\[(HIGH|MEDIUM|LOW)\]\s*(.+?)\s*$` (IGNORECASE).  Returns
(severity already uppercased, stripped title). -/
def matchHeading (line : Str) : Option (Str × Str) :=
  if "###".data.isPrefixOf line then
    match (line.drop 3).dropWhile isPySpace with
    | '[' :: r2 =>
      (match sevWords.findSome?
          (fun w => if ciIsPrefixOf w r2 then some w else none) with
       | some w =>
         (match r2.drop w.length with
          | ']' :: r3 => if r3.isEmpty then none else some (w, pyStrip r3)
          | _ => none)
       | none => none)
    | _ => none
  else none

/-- `_LOC_RE`: `^Location:\s*([^\s?#]+)(?:\?plain=1)?#L(\d+)(?:-L(\d+))?\s*$`
(IGNORECASE), applied to the stripped line.  End defaults to start. -/
def matchLocation (cs : Str) : Option (Str × Int × Int) :=
  if ciIsPrefixOf "Location:".data cs then
    let r1 := (cs.drop 9).dropWhile isPySpace
    let path := r1.takeWhile (fun c => !(isPySpace c || c = '?' || c = '#'))
    if path.isEmpty then none
    else
      let r2 := r1.drop path.length
      let r3 := if ciIsPrefixOf "?plain=1".data r2 then r2.drop 8 else r2
      match r3 with
      | '#' :: lc :: r4 =>
        if lc = 'L' || lc = 'l' then
          let d1p := takeDigits r4
          if d1p.1.isEmpty then none
          else
            let startN : Int := (digitsToNat d1p.1 : Int)
            match d1p.2 with
            | '-' :: lc2 :: r5 =>
              if lc2 = 'L' || lc2 = 'l' then
                let d2p := takeDigits r5
                if d2p.1.isEmpty then none
                else if (d2p.2.dropWhile isPySpace).isEmpty then
                  some (path, startN, (digitsToNat d2p.1 : Int))
                else none
              else none
            | rest => if (rest.dropWhile isPySpace).isEmpty then some (path, startN, startN) else none
        else none
      | _ => none
  else none

inductive Sect where
  | start
  | location
  | descr
  | sugg
deriving DecidableEq, Repr

structure PFCur where
  severity : Str
  title : Str
  locPath : Str
  locStart : Int
  locEnd : Int
  descRev : List Str
  suggRev : List Str
  sect : Sect
deriving Repr

/-- Derive a GH suggestion replacement from the first non-diff code block. -/
def deriveReplacement (suggRaw : Str) : Option Str :=
  match extractFirstCodeBlock suggRaw with
  | none => none
  | some lc =>
    if lc.2.isEmpty then none
    else if !lc.1.isEmpty && lc.1 ≠ "diff".data && lc.1 ≠ "patch".data then some lc.2
    else if lc.1.isEmpty then some lc.2
    else none

/-- Close a finding block: emit it only when the Location yielded a non-empty
path with `start > 0` and `end ≥ start`. -/
def closeFinding (c : PFCur) : Option Finding :=
  if !c.locPath.isEmpty && decide (c.locStart > 0) && decide (c.locEnd ≥ c.locStart) then
    let sugg := stripTrailingJsonTrailer (pyStrip (joinNL c.suggRev.reverse))
    some { severity := c.severity, title := c.title, path := c.locPath,
           start := c.locStart, endL := c.locEnd,
           desc := pyStrip (joinNL c.descRev.reverse),
           suggestionRaw := sugg,
           suggestionReplacement := deriveReplacement sugg,
           uid := none }
  else none

/-- Handle one body line of the current finding block. -/
def pfStep (c : PFCur) (line : Str) : PFCur :=
  let sl := pyStrip line
  if ciIsPrefixOf "location:".data sl then
    let c1 :=
      match matchLocation sl with
      | some pse => { c with locPath := pse.1, locStart := pse.2.1, locEnd := pse.2.2 }
      | none => c
    { c1 with sect := .location }
  else if ciIsPrefixOf "description:".data sl then { c with sect := .descr }
  else if ciIsPrefixOf "suggestion:".data sl then { c with sect := .sugg }
  else
    match c.sect with
    | .descr => { c with descRev := line :: c.descRev }
    | .sugg => { c with suggRev := line :: c.suggRev }
    | _ => c

/-- Close the currently open block, if any. -/
def closeOpt : Option PFCur → List Finding
  | some c => (closeFinding c).toList
  | none => []

/-- The fresh state opened by a heading line. -/
def newCur (st : Str × Str) : PFCur :=
  { severity := st.1, title := st.2, locPath := [], locStart := 0,
    locEnd := 0, descRev := [], suggRev := [], sect := .start }

/-- Feed one body line to the open block, if any. -/
def stepOpt : Option PFCur → Str → Option PFCur
  | some c, l => some (pfStep c l)
  | none, _ => none

def parseFindingsLines : List Str → Option PFCur → List Finding
  | [], cur => closeOpt cur
  | l :: ls, cur =>
    match matchHeading l with
    | some st => closeOpt cur ++ parseFindingsLines ls (some (newCur st))
    | none => parseFindingsLines ls (stepOpt cur l)

/-- `_parse_findings`. -/
def parseFindings (md : Str) : List Finding := parseFindingsLines (pySplitlines md) none

/-! ## The pipeline: `_build_from_sidecar` and `main` -/

/-- Outcome of probing a workspace file for clamping: `absent` models
`Path.is_file()` returning false, `unreadable` an exception while reading,
`lines n` a readable file with `n` lines. -/
inductive FileStat where
  | absent
  | unreadable
  | lines (n : Nat)

/-- One run directory, with file contents abstracted to their `json.loads`
outcome: `sidecarFile = none` means `review/index.json` does not exist,
`some none` that it exists but fails to parse, `some (some j)` that it parses
to `j`.  An entry `none` of `instanceFiles` is a file `_read_json` could not
read or parse (it is skipped).  `fs` is the workspace used for line
clamping, keyed by the repo-relative comment path. -/
structure RunInput where
  sidecarFile : Option (Option Json)
  instanceFiles : List (Option Json)
  repo : Str
  sha : Str
  severities : Str
  maxComments : Int
  fs : Str → FileStat

/-- `s.split(",")`. -/
def pySplitCommaAux : Str → Str → List Str
  | [], acc => [acc.reverse]
  | ',' :: rest, acc => acc.reverse :: pySplitCommaAux rest []
  | c :: rest, acc => pySplitCommaAux rest (c :: acc)

def pySplitComma (s : Str) : List Str := pySplitCommaAux s []

/-- `{s.strip().upper() for s in (args.severities or "HIGH").split(",") if s.strip()}`
(kept as a list; only membership is ever used). -/
def includeSevs (sevArg : Str) : List Str :=
  let src := if sevArg.isEmpty then "HIGH".data else sevArg
  (((pySplitComma src).map pyStrip).filter (fun t => !t.isEmpty)).map pyUpper

/-- `str.rstrip("\n")`. -/
def rstripNL (s : Str) : Str := (s.reverse.dropWhile (· = '\n')).reverse

/-- One line of `sanitize_code_for_gh_suggestion`: drop diff headers and
removed lines, unmark added lines. -/
def sanitizeLine (ln : Str) : Option Str :=
  if "--- ".data.isPrefixOf ln || "+++ ".data.isPrefixOf ln || "@@".data.isPrefixOf ln then none
  else if "+".data.isPrefixOf ln && !"++".data.isPrefixOf ln then some (ln.drop 1)
  else if "-".data.isPrefixOf ln && !"--".data.isPrefixOf ln then none
  else some ln

/-- `sanitize_code_for_gh_suggestion` of `_build_from_sidecar`. -/
def sanitizeCodeForGhSuggestion (code : Str) : Str :=
  let text :=
    match extractFirstCodeBlock code with
    | some lc => lc.2
    | none => code
  rstripNL (joinNL ((pySplitlines text).filterMap sanitizeLine))

/-- The feedback call-to-action line appended to every comment (the source
file contains exactly these characters). -/
def ctaLine : Str := "Please leave a reaction üëç/üëé to this suggestion to improve future reviews for everyone!".data

structure Comment where
  path : Str
  side : Str
  body : Str
  line : Int
  startLine : Option Int
  startSide : Option Str
deriving Repr, DecidableEq

/-- Clamp a line range against the workspace file: when the file is readable
its line count caps `end`, and the finding is dropped when `start` exceeds
the count; otherwise (missing file or read error) the range is unchanged. -/
def clampRange (fs : Str → FileStat) (path : Str) (st en : Int) : Option (Int × Int) :=
  match fs path with
  | .lines n =>
    let en2 := if en > (n : Int) then (n : Int) else en
    if st > (n : Int) then none else some (st, en2)
  | _ => some (st, en)

/-- Assemble the payload dict of one inline comment: a single-line range gets
only `line`, a multi-line range gets `start_line`/`line`/`start_side`. -/
def mkComment (path body : Str) (st en : Int) : Comment :=
  if st = en then
    { path := path, side := "RIGHT".data, body := body, line := en,
      startLine := none, startSide := none }
  else
    { path := path, side := "RIGHT".data, body := body, line := en,
      startLine := some st, startSide := some "RIGHT".data }

/-- The suggestion-block applicability test shared by both builders:
single line to single line, n lines to n lines, or an empty replacement
against a non-empty range. -/
def suggestionFits (repl : Str) (st en : Int) : Bool :=
  let replLines := pySplitlines repl
  let nRange := en - st + 1
  (decide (nRange = 1) && decide (replLines.length = 1)) ||
  (decide (nRange > 1) && decide ((replLines.length : Int) = nRange)) ||
  (repl.isEmpty && decide (nRange ≥ 1))

/-- Fields of one `selected_details` item, as extracted inside the `try`
of `_build_from_sidecar`; `none` models a raised coercion (the item is
skipped).  `severity` is read outside the `try` but from the same dict. -/
structure SCItem where
  path : Str
  start : Int
  endL : Int
  title : Str
  desc : Str
  code : Str
  severity : Str

def scExtract (it : Json) : Option SCItem :=
  match it with
  | .obj _ =>
    (match jIntOpt (jOr (jGet it "start".data) (.num 0)),
           jIntOpt (jOr (jGet it "end".data) (.num 0)) with
     | some st, some en =>
       (match jGetOpt (jOr (jGet it "suggestion".data) (.obj [])) "code".data with
        | some codeJ =>
          some { path := pyStrip (pyStrOf (jOr (jGet it "path".data) (.str [])))
               , start := st, endL := en
               , title := pyStrip (pyStrOf (jOr (jGet it "title".data) (.str [])))
               , desc := pyStrip (pyStrOf (jOr (jGet it "desc".data) (.str [])))
               , code := pyStrOf (jOr codeJ (.str []))
               , severity := pyUpper (pyStrip (pyStrOf (jOr (jGet it "severity".data) (.str [])))) }
        | none => none)
     | _, _ => none)
  | _ => none

/-- One inline comment of the sidecar path (`_build_from_sidecar` loop body):
`none` when the item is skipped (failed extraction, failed validity guard, or
start beyond the real file length). -/
def sidecarItemComment (repo sha : Str) (fs : Str → FileStat) (it : Json) : Option Comment :=
  match scExtract it with
  | none => none
  | some item =>
    if !item.path.isEmpty && decide (item.start > 0) &&
        decide (item.endL ≥ item.start) && !item.title.isEmpty then
      match clampRange fs item.path item.start item.endL with
      | none => none
      | some se =>
        let code := rstripNL item.code
        let parts1 : List Str :=
          if item.title.isEmpty then []
          else [pyStrip ("### [".data ++ item.severity ++ "] ".data ++ item.title)]
        let parts2 := if item.desc.isEmpty then parts1 else parts1 ++ [[], item.desc]
        let repl := sanitizeCodeForGhSuggestion code
        let parts3 :=
          if suggestionFits repl se.1 se.2 then
            parts2 ++ [[], "```suggestion".data] ++
              (if repl.isEmpty then [] else [repl]) ++ ["```".data]
          else parts2
        let parts4 := parts3 ++ [[], ctaLine]
        let bodyText := absolutizeLocationLinks repo sha (pyStrip (joinNL parts4))
        some (mkComment item.path bodyText se.1 se.2)
    else none

structure SidecarResult where
  body : Str
  event : Str
  comments : List Comment

/-- `_build_from_sidecar`. -/
def buildFromSidecar (sc : Json) (repo sha : Str) (fs : Str → FileStat) : SidecarResult :=
  let body0 := pyStrip (pyStrOf (jOr (jGet sc "intro".data) (.str [])))
  let commitId := pyStrip (pyStrOf (jOr (jGet sc "commit_id".data) (.str [])))
  let sha2 := if commitId.isEmpty then sha else commitId
  let items :=
    match jOr (jGet sc "selected_details".data) (.arr []) with
    | .arr xs => xs
    | _ => []
  { body := absolutizeLocationLinks repo sha2 body0
  , event := "COMMENT".data
  , comments := items.filterMap (sidecarItemComment repo sha2 fs) }

/-- `_role_of`: the direct `role` field (a non-empty string) first, then
`metadata.pr_review.role` (any string). -/
def roleOf (j : Json) : Option Str :=
  match jGet j "role".data with
  | .str s =>
    if !s.isEmpty then some s
    else roleOfMeta j
  | _ => roleOfMeta j
where
  roleOfMeta (j : Json) : Option Str :=
    match jGet j "metadata".data with
    | .obj kvs =>
      (match jGet (.obj kvs) "pr_review".data with
       | .obj kvs2 =>
         (match jGet (.obj kvs2) "role".data with
          | .str r => some r
          | _ => none)
       | _ => none)
    | _ => none

/-- `_final_message_of`. -/
def finalMessageOf (j : Json) : Option Str :=
  match jGet j "final_message".data with
  | .str s => some s
  | _ => none

/-- Accumulated state of the instance-record loop of `main` (the collected
metrics are dropped: the script gathers them but never uses them). -/
structure Collect where
  composerBody : Option Str
  validatorMsgs : List Str
  trailerFindings : List Json

def collectStep (st : Collect) (j : Json) : Collect :=
  let role := (roleOf j).getD []
  let fm := finalMessageOf j
  if role = "composer".data then
    match fm, st.composerBody with
    | some m, none => if !m.isEmpty then { st with composerBody := some m } else st
    | _, _ => st
  else if role = "validator".data then
    match fm with
    | some m =>
      if !m.isEmpty then
        { st with validatorMsgs := st.validatorMsgs ++ [m],
                  trailerFindings := st.trailerFindings ++ parseTrailerFindings m }
      else st
    | none => st
  else
    match fm with
    | some m =>
      if endsWithJsonTrailer m then
        { st with validatorMsgs := st.validatorMsgs ++ [m],
                  trailerFindings := st.trailerFindings ++ parseTrailerFindings m }
      else st
    | none => st

def jHasKey (j : Json) (k : Str) : Bool :=
  match j with
  | .obj kvs => kvs.any (fun kv => kv.1 == k)
  | _ => false

def dedupStrsAux : List Str → List Str → List Str
  | [], _ => []
  | s :: rest, seen =>
    if seen.contains s then dedupStrsAux rest seen
    else s :: dedupStrsAux rest (s :: seen)

def dedupStrs (l : List Str) : List Str := dedupStrsAux l []

/-- Derive (summary body, selected correlation ids) from the composer output
(lines 495-514 of `main`): a composer message that parses as a JSON object
with `intro` or `selected_ids` supplies both, otherwise the raw markdown body
is used and no ids are selected. -/
def composerSelection (composerBody : Option Str) : Str × List Str :=
  let body := composerBody.getD []
  let cj := if "\x7b".data.isPrefixOf (pyStrip body) then jsonParse body else none
  match cj with
  | some j =>
    if j.isObj && (jHasKey j "intro".data || jHasKey j "selected_ids".data) then
      let body2 :=
        match jGet j "intro".data with
        | .str s => if (pyStrip s).isEmpty then "Automated review summary".data else pyStrip s
        | _ => "Automated review summary".data
      let ids :=
        match jGet j "selected_ids".data with
        | .arr vs =>
          dedupStrs (vs.filterMap (fun v => match v with | .str s => some s | _ => none))
        | _ => []
      (body2, ids)
    else (body, [])
  | none => (body, [])

/-- Fields of a trailer finding (lines 527-534 and 560-567).  The `int()`
coercions at these sites are not guarded by a `try`; a value `int()` rejects
would abort the Python run, so such inputs are outside the modelled space and
the coercion is total here. -/
structure TItem where
  path : Str
  start : Int
  endL : Int
  severity : Str
  title : Str
  uid : Str

def jIntLenient (j : Json) : Int := (jIntOpt j).getD 0

def tItemOf (it : Json) : TItem :=
  { path := pyStrip (pyStrOf (jOr (jGet it "path".data) (.str [])))
  , start := jIntLenient (jOr (jGet it "start".data) (.num 0))
  , endL := jIntLenient (jOr (jGet it "end".data) (.num 0))
  , severity := pyUpper (pyStrip (pyStrOf (jOr (jGet it "severity".data) (.str []))))
  , title := pyStrip (pyStrOf (jOr (jGet it "title".data) (.str [])))
  , uid := pyStrip (pyStrOf (jOr (jGet it "uid".data) (.str []))) }

/-- Lookup in `trailer_index` (built with dict assignment, so the last valid
entry for a key wins). -/
def trailerIndexLookup (tfs : List Json) (key : Str × Int × Int × Str × Str) : Option Str :=
  tfs.reverse.findSome? (fun it =>
    let t := tItemOf it
    if !t.path.isEmpty && decide (t.start > 0) && decide (t.endL ≥ t.start) &&
        !t.severity.isEmpty && !t.title.isEmpty && !t.uid.isEmpty &&
        decide ((t.path, t.start, t.endL, t.severity, t.title) = key)
    then some t.uid else none)

/-- Attach trailer correlation ids to parsed findings by exact key match. -/
def attachUids (tfs : List Json) (fs : List Finding) : List Finding :=
  if tfs.isEmpty then fs
  else fs.map (fun f =>
    match trailerIndexLookup tfs (f.path, f.start, f.endL, pyUpper f.severity, f.title) with
    | some u => { f with uid := some u }
    | none => f)

/-- All parsed validator findings, in message order, with uids attached. -/
def allFindings (msgs : List Str) (tfs : List Json) : List Finding :=
  (msgs.map (fun m => attachUids tfs (parseFindings m))).flatten

/-- `trailer_by_uid.get(uid)` (dict assignment: last non-empty uid wins). -/
def trailerByUid (tfs : List Json) (uid : Str) : Option Json :=
  tfs.reverse.find? (fun it =>
    let u := pyStrip (pyStrOf (jOr (jGet it "uid".data) (.str [])))
    !u.isEmpty && u == uid)

def parsedIndexLookup (fs : List Finding) (key : Str × Int × Int × Str × Str) : Option Finding :=
  fs.reverse.find? (fun f =>
    decide ((f.path, f.start, f.endL, pyUpper f.severity, f.title) = key))

def parsedAltIndexLookup (fs : List Finding) (key : Str × Int × Int × Str) : Option Finding :=
  fs.reverse.find? (fun f => decide ((f.path, f.start, f.endL, pyUpper f.severity) = key))

/-- Resolve one composer-selected correlation id (lines 557-587): through the
trailer entry and the parsed indexes, falling back to a minimal synthesized
finding from trailer fields, or to a parsed finding carrying the uid. -/
def resolveUid (findings : List Finding) (tfs : List Json) (uid : Str) : Option Finding :=
  match trailerByUid tfs uid with
  | some t =>
    let ti := tItemOf t
    (match parsedIndexLookup findings (ti.path, ti.start, ti.endL, ti.severity, ti.title) with
     | some f => some f
     | none =>
       match parsedAltIndexLookup findings (ti.path, ti.start, ti.endL, ti.severity) with
       | some f => some f
       | none =>
         if !ti.path.isEmpty && decide (ti.start > 0) && decide (ti.endL ≥ ti.start) then
           some { severity := if ti.severity.isEmpty then "HIGH".data else ti.severity
                , title := if ti.title.isEmpty then "Selected finding".data else ti.title
                , path := ti.path, start := ti.start, endL := ti.endL
                , desc := [], suggestionRaw := [], suggestionReplacement := none
                , uid := some uid }
         else none)
  | none => findings.find? (fun f => f.uid == some uid)

/-- Code-side deduplication (the `seen` set loop of the default strategy). -/
def dedupeFindingsAux : List Finding → List (Str × Int × Int × Str) → List Finding
  | [], _ => []
  | f :: rest, seen =>
    if seen.any (fun k => decide (k = f.key)) then dedupeFindingsAux rest seen
    else f :: dedupeFindingsAux rest (f.key :: seen)

def dedupeFindings (fs : List Finding) : List Finding := dedupeFindingsAux fs []

/-- The two selection strategies of `main` (lines 543-601). -/
def selectFindings (sevs : List Str) (selectedIds : List Str)
    (findings : List Finding) (tfs : List Json) : List Finding :=
  if !selectedIds.isEmpty then
    selectedIds.filterMap (fun uid =>
      match resolveUid findings tfs uid with
      | some f => if sevs.any (fun s => s == f.severity) then some f else none
      | none => none)
  else
    dedupeFindings (findings.filter (fun f => sevs.any (fun s => s == f.severity)))

/-- `base_list[: max(0, int(args.max_comments))]`. -/
def capList (mc : Int) (l : List Finding) : List Finding := l.take (max (0 : Int) mc).toNat

/-- Deletion-only detection on the raw suggestion (lines 648-653). -/
def deletionOnly (raw : Str) : Bool :=
  let text :=
    match extractFirstCodeBlock raw with
    | some lc => lc.2
    | none => raw
  let lns := (pySplitlines text).map pyStrip
  let hasAdd := lns.any (fun ln => "+".data.isPrefixOf ln && !"++".data.isPrefixOf ln)
  let hasDel := lns.any (fun ln => "-".data.isPrefixOf ln && !"--".data.isPrefixOf ln)
  hasDel && !hasAdd

/-- Body parts and the `submitted_suggestion` flag of one fallback comment
(lines 623-668), for the already-clamped range `[st, en]`. -/
def renderParts (f : Finding) (st en : Int) : List Str × Bool :=
  let parts1 : List Str := ["### [".data ++ f.severity ++ "] ".data ++ f.title]
  let parts2 := if (pyStrip f.desc).isEmpty then parts1 else parts1 ++ [[], pyStrip f.desc]
  let r1 : Option Str :=
    match f.suggestionReplacement with
    | some repl0 =>
      let repl := rstripNL repl0
      if suggestionFits repl st en then some repl else none
    | none => none
  match r1 with
  | some repl =>
    (parts2 ++ [[], "```suggestion".data] ++ (if repl.isEmpty then [] else [repl]) ++
      ["```".data] ++ [[], ctaLine], true)
  | none =>
    if !(pyStrip f.suggestionRaw).isEmpty && deletionOnly f.suggestionRaw then
      (parts2 ++ [[], "```suggestion".data, "```".data] ++ [[], ctaLine], true)
    else if !(pyStrip f.suggestionRaw).isEmpty then
      let cleaned := pyStrip (stripFencedBlocks (removeJsonTrailers (pyStrip f.suggestionRaw)))
      (parts2 ++ [[]] ++ (if cleaned.isEmpty then [] else [cleaned]) ++ [[], ctaLine], false)
    else (parts2 ++ [[], ctaLine], false)

/-- One emitted comment of the fallback path (clamping plus rendering). -/
def fallbackComment (repo sha : Str) (fs : Str → FileStat) (f : Finding) : Option Comment :=
  match clampRange fs f.path f.start f.endL with
  | none => none
  | some se =>
    let pb := renderParts f se.1 se.2
    let bodyText := absolutizeLocationLinks repo sha (pyStrip (joinNL pb.1))
    some (mkComment f.path bodyText se.1 se.2)

/-- The final JSON payload on stdout. -/
structure Payload where
  body : Str
  event : Str
  comments : List Comment
  commitId : Option Str
deriving Repr, DecidableEq

/-- The parsed per-agent records of the run (only JSON objects survive
`_read_json` plus the `isinstance(data, dict)` filter). -/
def fallbackRecords (inp : RunInput) : List Json :=
  inp.instanceFiles.filterMap (fun o => o.bind (fun j => if j.isObj then some j else none))

def fallbackCollect (inp : RunInput) : Collect :=
  (fallbackRecords inp).foldl collectStep ⟨none, [], []⟩

/-- The fallback path raises an uncaught `ValueError`/`TypeError`: a trailer
finding with a non-coercible `start`/`end` reached either by the
trailer-index loop (which runs once per validator message, lines 525-534) or
by a composer-selected uid lookup (lines 558-567). -/
def fallbackIntCrash (inp : RunInput) : Bool :=
  (!(fallbackCollect inp).validatorMsgs.isEmpty &&
      (fallbackCollect inp).trailerFindings.any (fun it => !trailerIntsOk it)) ||
  ((composerSelection (fallbackCollect inp).composerBody).2.any (fun uid =>
    match trailerByUid (fallbackCollect inp).trailerFindings uid with
    | some t => !trailerIntsOk t
    | none => false))

/-- All parsed validator findings of the run, with uids attached. -/
def fallbackFindings (inp : RunInput) : List Finding :=
  allFindings (fallbackCollect inp).validatorMsgs (fallbackCollect inp).trailerFindings

/-- The selected finding list, before the maximum-comment cap. -/
def fallbackSelected (inp : RunInput) : List Finding :=
  selectFindings (includeSevs inp.severities)
    (composerSelection (fallbackCollect inp).composerBody).2
    (fallbackFindings inp) (fallbackCollect inp).trailerFindings

/-- The selected finding list after the maximum-comment cap. -/
def fallbackBase (inp : RunInput) : List Finding :=
  capList inp.maxComments (fallbackSelected inp)

def fallbackComments (inp : RunInput) : List Comment :=
  (fallbackBase inp).filterMap
    (fallbackComment (pyStrip inp.repo) (pyStrip inp.sha) inp.fs)

def fallbackBody (inp : RunInput) : Str :=
  let body1 := absolutizeLocationLinks (pyStrip inp.repo) (pyStrip inp.sha)
    (composerSelection (fallbackCollect inp).composerBody).1
  if (pyStrip body1).isEmpty then "No documentation issues detected.".data else body1

/-- `main`: `Except.error` models `raise SystemExit` and the uncaught
`int()` exception (non-zero exit before any output is written); the error
strings abbreviate the Python messages. -/
def runMain (inp : RunInput) : Except Str Payload :=
  let repo := pyStrip inp.repo
  let sha := pyStrip inp.sha
  match inp.sidecarFile with
  | some none => .error "Failed to read sidecar".data
  | some (some sc) =>
    let r := buildFromSidecar sc repo sha inp.fs
    .ok { body := if r.body.isEmpty then "No documentation issues detected.".data else r.body
        , event := "COMMENT".data
        , comments := r.comments
        , commitId :=
            let v := jOr (jGet sc "commit_id".data) (.str sha)
            if jTruthy v then some (pyStrOf v) else none }
  | none =>
    if (fallbackRecords inp).isEmpty then
      .error "No instance JSON files found in run dir and no sidecar present".data
    else if fallbackIntCrash inp then
      .error "invalid literal for int()".data
    else
      .ok { body := fallbackBody inp
          , event := "COMMENT".data
          , comments := fallbackComments inp
          , commitId := if sha.isEmpty then none else some sha }

/-! ## Spec-side definitions (stated from the claims, for comparison) -/

/-- The emitted-comment well-formedness facts shared by claims C5 and C10. -/
def GoodComment (c : Comment) : Prop :=
  c.side = "RIGHT".data ∧
  1 ≤ c.startLine.getD c.line ∧ c.startLine.getD c.line ≤ c.line ∧
  (c.startLine = none → c.startSide = none) ∧
  ∀ s, c.startLine = some s → c.startSide = some "RIGHT".data ∧ s < c.line

/-- Severity filtering as claim C6 states it: restrict to the requested set. -/
def specFilterSev (sevs : List Str) (l : List Finding) : List Finding :=
  l.filter (fun f => decide (f.severity ∈ sevs))

/-- Deduplication as claim C6 states it: keep a finding exactly when no
earlier finding has the same composite key (first occurrence wins, in
discovery order).  Fuel-based so that it evaluates in the kernel. -/
def specDedupeAux : Nat → List Finding → List Finding
  | 0, _ => []
  | _ + 1, [] => []
  | fuel + 1, f :: rest =>
    f :: specDedupeAux fuel (rest.filter (fun g => !decide (g.key = f.key)))

def specDedupe (l : List Finding) : List Finding := specDedupeAux l.length l

/-- The replacement-fit side of the suggestion condition (the derived
replacement, right-stripped of newlines, fits the selected range). -/
def replacementFits (f : Finding) (st en : Int) : Bool :=
  match f.suggestionReplacement with
  | some r => suggestionFits (rstripNL r) st en
  | none => false

/-- The attachment condition exactly as claim C7 states it: a fitting derived
replacement, or — only when NO replacement was derived — a non-empty
deletion-only raw suggestion. -/
def claimC7Cond (f : Finding) (st en : Int) : Bool :=
  replacementFits f st en ||
  (f.suggestionReplacement.isNone && !(pyStrip f.suggestionRaw).isEmpty &&
    deletionOnly f.suggestionRaw)

/-- The attachment condition as amended: the synthesis fires whenever no
applicable block was emitted from the derived replacement (also when one was
derived but mismatched the range). -/
def amendedC7Cond (f : Finding) (st en : Int) : Bool :=
  replacementFits f st en ||
  (!(pyStrip f.suggestionRaw).isEmpty && deletionOnly f.suggestionRaw)

/-- Substring occurrence (used to state the amended claim C3). -/
def hasSubstr (pat : Str) : Str → Bool
  | [] => pat.isEmpty
  | s@(_ :: rest) => pat.isPrefixOf s || hasSubstr pat rest

/-- No line of the text carries a `Location:` marker (with optional leading
list marker). -/
def noLocMarkerLine (x : Str) : Bool :=
  (pySplitlines x).all (fun l => !(locMarkers.any (fun m => m.isPrefixOf (pyLstrip l))))

/-- The text contains none of the material the link transform rewrites:
no `?plain=1` occurrence, no blob-URL prefix occurrence for the given
repository, and no Location-marker line. -/
def linkFreeText (repo x : Str) : Bool :=
  !hasSubstr "?plain=1".data x && !hasSubstr (blobPrefix repo) x && noLocMarkerLine x

/-- The text does not end in a line-break character. -/
def noTrailingBreak (x : Str) : Bool :=
  match x.getLast? with
  | none => true
  | some c => !isLineBreak c

/-- Every line-break character of the text is a plain newline. -/
def onlyNLBreaks (x : Str) : Bool := x.all (fun c => !isLineBreak c || c == '\n')

/-! ## Concrete example inputs -/

/-- A validator message parsing to one HIGH and one MEDIUM finding;
the HIGH one has a single-line range and a single-line fenced suggestion. -/
def exValidatorMsg : Str :=
  "### [HIGH] T one\nLocation: docs/a.mdx?plain=1#L10-L10\nDescription:\nmissing X\nSuggestion:\n```\nfixed line\n```\n### [MEDIUM] T two\nLocation: docs/b.mdx?plain=1#L3\n".data

def exValidatorRec : Json :=
  .obj [("role".data, .str "validator".data), ("final_message".data, .str exValidatorMsg)]

def exComposerRec : Json :=
  .obj [("role".data, .str "composer".data), ("final_message".data, .str "Summary body".data)]

/-- A plain fallback run: no sidecar, one validator record. -/
def exFallbackInput : RunInput :=
  { sidecarFile := none, instanceFiles := [some exValidatorRec], repo := [], sha := [],
    severities := "HIGH".data, maxComments := 40, fs := fun _ => .absent }

/-- The same run directory with a sidecar file that exists but fails to parse. -/
def exC1Input : RunInput := { exFallbackInput with sidecarFile := some none }

def exC9Input : RunInput :=
  { sidecarFile := some none, instanceFiles := [some exComposerRec, some exValidatorRec],
    repo := [], sha := [], severities := "HIGH".data, maxComments := 40, fs := fun _ => .absent }

def exSidecarItem (i : Nat) : Json :=
  .obj [("path".data, .str "docs/a.mdx".data), ("start".data, .num 1), ("end".data, .num 1),
        ("title".data, .str ("Finding ".data ++ (toString i).data)),
        ("severity".data, .str "high".data)]

/-- A parsed sidecar with 41 valid pre-selected detail items. -/
def exSidecar41 : Json :=
  .obj [("intro".data, .str "Intro".data),
        ("selected_details".data, .arr ((List.range 41).map exSidecarItem))]

def exC2Input : RunInput :=
  { sidecarFile := some (some exSidecar41), instanceFiles := [], repo := [], sha := [],
    severities := "HIGH".data, maxComments := 40, fs := fun _ => .absent }

/-- A second validator message with one multi-line HIGH finding. -/
def exMultiMsg : Str := "### [HIGH] Multi\nLocation: docs/c.mdx?plain=1#L4-L6\n".data

def exMultiRec : Json :=
  .obj [("role".data, .str "validator".data), ("final_message".data, .str exMultiMsg)]

def exMultiInput : RunInput :=
  { sidecarFile := none, instanceFiles := [some exMultiRec], repo := [], sha := [],
    severities := "HIGH".data, maxComments := 40, fs := fun _ => .absent }

def emptyPayload : Payload := { body := [], event := [], comments := [], commitId := none }

def emptyComment : Comment :=
  { path := [], side := [], body := [], line := 0, startLine := none, startSide := none }

/-- The payload of the plain fallback example run. -/
def exFallbackOut : Payload := (runMain exFallbackInput).toOption.getD emptyPayload

def exFallbackComment : Comment := exFallbackOut.comments.head?.getD emptyComment

def exMultiOut : Payload := (runMain exMultiInput).toOption.getD emptyPayload

def exMultiComment : Comment := exMultiOut.comments.head?.getD emptyComment

/-- A validator message whose fenced JSON trailer is present but unparseable. -/
def exBadTrailerMsg : Str := "text\n```json\n\x7bnot json\x7d\n```".data

/-- A run directory with no sidecar and no per-agent records at all. -/
def exEmptyInput : RunInput := { exFallbackInput with instanceFiles := [] }

/-- A validator message whose fenced JSON trailer parses but carries a
finding with a non-coercible `start` field: the unguarded `int()` on it
crashes the run uncaught. -/
def exBadIntMsg : Str :=
  "x\n```json\n\x7b\"findings\": [\x7b\"start\": \"abc\"\x7d]\x7d\n```".data

def exBadIntRec : Json :=
  .obj [("role".data, .str "validator".data), ("final_message".data, .str exBadIntMsg)]

def exBadIntInput : RunInput := { exFallbackInput with instanceFiles := [some exBadIntRec] }

instance {ε α : Type} [DecidableEq ε] [DecidableEq α] : DecidableEq (Except ε α) := fun a b =>
  match a, b with
  | .ok x, .ok y =>
    if h : x = y then .isTrue (by subst h; rfl)
    else .isFalse (fun hc => h (Except.ok.inj hc))
  | .error x, .error y =>
    if h : x = y then .isTrue (by subst h; rfl)
    else .isFalse (fun hc => h (Except.error.inj hc))
  | .ok _, .error _ => .isFalse (fun hc => Except.noConfusion hc)
  | .error _, .ok _ => .isFalse (fun hc => Except.noConfusion hc)

/-- A finding block whose derived replacement (2 lines) mismatches its range
(3 lines) while the raw suggestion is deletion-only. -/
def exC7Md : Str :=
  "### [HIGH] Mismatch\nLocation: docs/a.mdx?plain=1#L1-L3\nSuggestion:\n```\n-a\n-b\n```\n".data

/-- One finding block of the 50-finding scenario-D message. -/
def scenDBlock (i : Nat) : String :=
  "### [HIGH] T" ++ toString i ++ "\nLocation: docs/f" ++ toString i ++ ".mdx?plain=1#L1\n"

def exScenDMsg : Str := (String.join ((List.range 50).map scenDBlock)).data

def exScenDRec : Json :=
  .obj [("role".data, .str "validator".data), ("final_message".data, .str exScenDMsg)]

/-- Scenario D: 50 valid parsed findings, max-comments 40. -/
def exScenDInput : RunInput :=
  { sidecarFile := none, instanceFiles := [some exScenDRec], repo := [], sha := [],
    severities := "HIGH".data, maxComments := 40, fs := fun _ => .absent }

def exScenDExpectedPaths : List Str :=
  (List.range 40).map (fun i => ("docs/f" ++ toString i ++ ".mdx").data)

/-- A finding with no derived replacement and a non-deletion raw suggestion
(rendered as prose). -/
def exC7ProseFinding : Finding :=
  { severity := "HIGH".data, title := "Prose".data, path := "docs/a.mdx".data,
    start := 1, endL := 1, desc := [],
    suggestionRaw := "use plain prose here".data,
    suggestionReplacement := none, uid := none }

/-- A link-free, newline-separated text: a fixed point of the link
transform. -/
def exC3GoodText : Str := "The docs look fine.\n\nNo further issues.".data

/-! ## Counterexample and evaluation theorems -/

set_option maxRecDepth 100000

/-- **C3, counterexample.** The link-normalization transform is not
idempotent: with repository id `ton-org/docs` and head revision `deadbeef`,
one application to the text `"a\n\n"` yields `"a\n"` (the splitlines/join
pass drops one trailing newline) and a second application yields `"a"`. -/
theorem C3_not_idempotent_cx :
    absolutizeLocationLinks "ton-org/docs".data "deadbeef".data
        (absolutizeLocationLinks "ton-org/docs".data "deadbeef".data "a\n\n".data) ≠
      absolutizeLocationLinks "ton-org/docs".data "deadbeef".data "a\n\n".data := by
  decide

/-- **C4.** Evaluation at the failing input: an already-absolute style-guide
URL pinned to revision `abc` is not corrected to the trunk anchor `main`.
The style scan prepends a second, trunk-anchored URL inside the original one
and the revision fix then rewrites the outer revision segment to the head
revision, producing a mangled nested URL. -/
theorem C4_style_url_mangled :
    absolutizeLocationLinks "ton-org/docs".data "deadbeef".data
        "https://github.com/ton-org/docs/blob/abc/contribute/style-guide-extended.mdx?plain=1#L1".data =
      "https://github.com/ton-org/docs/blob/deadbeef/https://github.com/ton-org/docs/blob/main/contribute/style-guide-extended.mdx?plain=1#L1".data := by
  decide

/-- **C1, counterexample.** A sidecar file that exists but fails to parse
does not make the pipeline fall through to the per-agent records: the run
aborts, although the same run directory without the sidecar file produces a
payload from the per-agent records. -/
theorem C1_sidecar_parse_aborts_cx :
    (runMain exC1Input).isOk = false ∧
      (runMain exFallbackInput).isOk = true := by
  refine ⟨by decide, by decide⟩

/-- **C9, counterexample.** Missing both input sources is not the only input
condition that terminates the run: here the sidecar file is present (and
per-agent records exist too), yet the run aborts because the sidecar fails
to parse. -/
theorem C9_not_only_abort_cx :
    exC9Input.sidecarFile.isSome = true ∧ exC9Input.instanceFiles.length = 2 ∧
      (runMain exC9Input).isOk = false := by
  refine ⟨by decide, by decide, by decide⟩

/-- **C2, counterexample.** The sidecar path does not truncate to the
configured maximum comment count: 41 valid pre-selected items and
max-comments 40 produce 41 emitted comments. -/
theorem C2_sidecar_no_truncation_cx :
    exC2Input.maxComments = 40 ∧
      (runMain exC2Input).toOption.map (fun p => p.comments.length) = some 41 := by
  refine ⟨by decide, by decide⟩

/-! ## Well-formedness of emitted comments -/

theorem mkComment_good (path body : Str) (st en : Int) (h1 : 0 < st) (h2 : st ≤ en) :
    GoodComment (mkComment path body st en) := by
  unfold GoodComment mkComment
  by_cases h : st = en
  · subst h
    simp only [if_pos rfl]
    simp
    omega
  · simp only [if_neg h]
    simp
    omega

theorem clampRange_some_valid (fs : Str → FileStat) (path : Str) (st en : Int)
    (h1 : 0 < st) (h2 : st ≤ en) :
    ∀ se, clampRange fs path st en = some se → 0 < se.1 ∧ se.1 ≤ se.2 := by
  intro se h
  unfold clampRange at h
  cases hfs : fs path with
  | absent => simp only [hfs] at h; cases Option.some.inj h; exact ⟨h1, h2⟩
  | unreadable => simp only [hfs] at h; cases Option.some.inj h; exact ⟨h1, h2⟩
  | lines n =>
    simp only [hfs] at h
    by_cases hst : st > (n : Int)
    · simp only [if_pos hst] at h
      exact Option.noConfusion h
    · simp only [if_neg hst] at h
      cases h
      refine ⟨h1, ?_⟩
      by_cases hen : en > (n : Int) <;> simp only [hen, if_true, if_false] <;> omega

theorem fallbackComment_good (repo sha : Str) (fs : Str → FileStat) (f : Finding)
    (hv : 0 < f.start ∧ f.start ≤ f.endL) :
    ∀ c, fallbackComment repo sha fs f = some c → GoodComment c := by
  intro c h
  unfold fallbackComment at h
  cases hc : clampRange fs f.path f.start f.endL with
  | none => simp only [hc] at h; exact Option.noConfusion h
  | some se =>
    have hse := clampRange_some_valid fs f.path f.start f.endL hv.1 hv.2 se hc
    simp only [hc, Option.some.injEq] at h
    subst h
    exact mkComment_good _ _ _ _ hse.1 hse.2

theorem sidecarItemComment_good (repo sha : Str) (fs : Str → FileStat) (it : Json) :
    ∀ c, sidecarItemComment repo sha fs it = some c → GoodComment c := by
  intro c h
  unfold sidecarItemComment at h
  cases he : scExtract it with
  | none => simp only [he] at h; exact Option.noConfusion h
  | some item =>
    simp only [he] at h
    by_cases hg : (!item.path.isEmpty && decide (item.start > 0) &&
        decide (item.endL ≥ item.start) && !item.title.isEmpty) = true
    · rw [if_pos hg] at h
      simp only [Bool.and_eq_true, decide_eq_true_eq] at hg
      cases hc : clampRange fs item.path item.start item.endL with
      | none => simp only [hc] at h; exact Option.noConfusion h
      | some se =>
        have hse := clampRange_some_valid fs item.path item.start item.endL
          hg.1.1.2 hg.1.2 se hc
        simp only [hc, Option.some.injEq] at h
        subst h
        exact mkComment_good _ _ _ _ hse.1 hse.2
    · rw [if_neg hg] at h
      exact Option.noConfusion h

/-! ## Validity of parsed and selected findings -/

theorem closeFinding_valid (c : PFCur) :
    ∀ f, closeFinding c = some f → 0 < f.start ∧ f.start ≤ f.endL := by
  intro f h
  unfold closeFinding at h
  by_cases hg : (!c.locPath.isEmpty && decide (c.locStart > 0) &&
      decide (c.locEnd ≥ c.locStart)) = true
  · rw [if_pos hg] at h
    simp only [Bool.and_eq_true, decide_eq_true_eq] at hg
    cases Option.some.inj h
    exact ⟨hg.1.2, hg.2⟩
  · rw [if_neg hg] at h
    exact Option.noConfusion h

theorem closeOpt_valid (cur : Option PFCur) :
    ∀ f ∈ closeOpt cur, 0 < f.start ∧ f.start ≤ f.endL := by
  intro f hf
  cases cur with
  | none => simp [closeOpt] at hf
  | some c =>
    simp only [closeOpt] at hf
    cases hcf : closeFinding c with
    | none => simp [hcf] at hf
    | some g =>
      simp only [hcf, Option.toList_some, List.mem_singleton] at hf
      exact hf ▸ closeFinding_valid c g hcf

theorem parseFindingsLines_valid :
    ∀ (ls : List Str) (cur : Option PFCur) (f : Finding),
      f ∈ parseFindingsLines ls cur → 0 < f.start ∧ f.start ≤ f.endL := by
  intro ls
  induction ls with
  | nil => intro cur f hf; exact closeOpt_valid cur f hf
  | cons l ls ih =>
    intro cur f hf
    cases hh : matchHeading l with
    | none =>
      simp only [parseFindingsLines, hh] at hf
      exact ih _ f hf
    | some st =>
      simp only [parseFindingsLines, hh] at hf
      rcases List.mem_append.mp hf with h1 | h2
      · exact closeOpt_valid cur f h1
      · exact ih _ f h2

theorem parseFindings_valid (md : Str) :
    ∀ f ∈ parseFindings md, 0 < f.start ∧ f.start ≤ f.endL := by
  intro f hf
  exact parseFindingsLines_valid _ _ f hf

theorem attachUids_valid (tfs : List Json) (fs : List Finding)
    (h : ∀ f ∈ fs, 0 < f.start ∧ f.start ≤ f.endL) :
    ∀ f ∈ attachUids tfs fs, 0 < f.start ∧ f.start ≤ f.endL := by
  intro f hf
  unfold attachUids at hf
  by_cases he : tfs.isEmpty
  · rw [if_pos he] at hf
    exact h f hf
  · rw [if_neg he] at hf
    rcases List.mem_map.mp hf with ⟨g, hg, hfg⟩
    have hgv := h g hg
    cases hl : trailerIndexLookup tfs (g.path, g.start, g.endL, pyUpper g.severity, g.title) <;>
      simp only [hl] at hfg
    · exact hfg ▸ hgv
    · exact hfg ▸ hgv

theorem allFindings_valid (msgs : List Str) (tfs : List Json) :
    ∀ f ∈ allFindings msgs tfs, 0 < f.start ∧ f.start ≤ f.endL := by
  intro f hf
  unfold allFindings at hf
  rcases List.mem_flatten.mp hf with ⟨l, hl, hfl⟩
  rcases List.mem_map.mp hl with ⟨m, _, hml⟩
  subst hml
  exact attachUids_valid tfs _ (parseFindings_valid m) f hfl

theorem resolveUid_valid (findings : List Finding) (tfs : List Json) (uid : Str)
    (h : ∀ f ∈ findings, 0 < f.start ∧ f.start ≤ f.endL) :
    ∀ f, resolveUid findings tfs uid = some f → 0 < f.start ∧ f.start ≤ f.endL := by
  intro f hf
  unfold resolveUid at hf
  cases ht : trailerByUid tfs uid with
  | none =>
    simp only [ht] at hf
    exact h f (List.mem_of_find?_eq_some hf)
  | some tj =>
    simp only [ht] at hf
    cases hp : parsedIndexLookup findings
        ((tItemOf tj).path, (tItemOf tj).start, (tItemOf tj).endL,
          (tItemOf tj).severity, (tItemOf tj).title) with
    | some g =>
      simp only [hp, Option.some.injEq] at hf
      subst hf
      exact h _ (List.mem_reverse.mp (List.mem_of_find?_eq_some hp))
    | none =>
      simp only [hp] at hf
      cases ha : parsedAltIndexLookup findings
          ((tItemOf tj).path, (tItemOf tj).start, (tItemOf tj).endL,
            (tItemOf tj).severity) with
      | some g =>
        simp only [ha, Option.some.injEq] at hf
        subst hf
        exact h _ (List.mem_reverse.mp (List.mem_of_find?_eq_some ha))
      | none =>
        simp only [ha] at hf
        by_cases hg : (!(tItemOf tj).path.isEmpty && decide ((tItemOf tj).start > 0) &&
            decide ((tItemOf tj).endL ≥ (tItemOf tj).start)) = true
        · rw [if_pos hg] at hf
          simp only [Bool.and_eq_true, decide_eq_true_eq] at hg
          cases Option.some.inj hf
          exact ⟨hg.1.2, hg.2⟩
        · rw [if_neg hg] at hf
          exact Option.noConfusion hf

theorem dedupeFindingsAux_subset :
    ∀ (l : List Finding) (seen : List (Str × Int × Int × Str)) (f : Finding),
      f ∈ dedupeFindingsAux l seen → f ∈ l := by
  intro l
  induction l with
  | nil => intro seen f hf; simp [dedupeFindingsAux] at hf
  | cons g rest ih =>
    intro seen f hf
    unfold dedupeFindingsAux at hf
    by_cases hs : (seen.any (fun k => decide (k = g.key))) = true
    · rw [if_pos hs] at hf
      exact List.mem_cons_of_mem g (ih _ f hf)
    · rw [if_neg hs] at hf
      rcases List.mem_cons.mp hf with h1 | h2
      · exact h1 ▸ List.mem_cons_self g rest
      · exact List.mem_cons_of_mem g (ih _ f h2)

theorem selectFindings_valid (sevs selectedIds : List Str)
    (findings : List Finding) (tfs : List Json)
    (h : ∀ f ∈ findings, 0 < f.start ∧ f.start ≤ f.endL) :
    ∀ f ∈ selectFindings sevs selectedIds findings tfs, 0 < f.start ∧ f.start ≤ f.endL := by
  intro f hf
  unfold selectFindings at hf
  by_cases hne : selectedIds.isEmpty
  · simp only [hne, Bool.not_true, Bool.false_eq_true, if_false] at hf
    have h2 := dedupeFindingsAux_subset _ _ f hf
    exact h f (List.mem_filter.mp h2).1
  · simp only [hne, Bool.not_false, if_true] at hf
    rcases List.mem_filterMap.mp hf with ⟨uid, _, hres⟩
    cases hr : resolveUid findings tfs uid with
    | none => simp only [hr] at hres; exact Option.noConfusion hres
    | some g =>
      simp only [hr] at hres
      by_cases hsev : (sevs.any (fun s => s == g.severity)) = true
      · rw [if_pos hsev] at hres
        have hgf := Option.some.inj hres
        subst hgf
        exact resolveUid_valid findings tfs uid h _ hr
      · rw [if_neg hsev] at hres
        exact Option.noConfusion hres

theorem fallbackBase_valid (inp : RunInput) :
    ∀ f ∈ fallbackBase inp, 0 < f.start ∧ f.start ≤ f.endL := by
  intro f hf
  unfold fallbackBase capList at hf
  have hmem := List.take_subset _ _ hf
  exact selectFindings_valid _ _ _ _ (allFindings_valid _ _) f hmem

/-- Every comment of a successful run is well formed. -/
theorem runMain_comments_good (inp : RunInput) (out : Payload)
    (h : runMain inp = .ok out) : ∀ c ∈ out.comments, GoodComment c := by
  intro c hc
  unfold runMain at h
  cases hs : inp.sidecarFile with
  | none =>
    simp only [hs] at h
    by_cases hr : (fallbackRecords inp).isEmpty
    · rw [if_pos hr] at h; exact Except.noConfusion h
    · rw [if_neg hr] at h
      by_cases hcr : fallbackIntCrash inp = true
      · rw [if_pos hcr] at h; exact Except.noConfusion h
      · rw [if_neg hcr] at h
        cases Except.ok.inj h
        rcases List.mem_filterMap.mp hc with ⟨f, hf, hfc⟩
        exact fallbackComment_good _ _ _ f (fallbackBase_valid inp f hf) c hfc
  | some osc =>
    cases osc with
    | none => simp only [hs] at h; exact Except.noConfusion h
    | some sc =>
      simp only [hs] at h
      cases Except.ok.inj h
      rcases List.mem_filterMap.mp hc with ⟨it, _, hitc⟩
      exact sidecarItemComment_good _ _ _ it c hitc

/-- **C5.** Every inline comment the pipeline emits — from the sidecar path
and from the markdown fallback path alike — has a line range with
`1 ≤ start ≤ end` after parsing and after any clamping (`start` is
`start_line` when present, else `line`). -/
theorem C5_comment_ranges (inp : RunInput) (out : Payload) (h : runMain inp = .ok out) :
    ∀ c ∈ out.comments,
      1 ≤ c.startLine.getD c.line ∧ c.startLine.getD c.line ≤ c.line := by
  intro c hc
  have hg := runMain_comments_good inp out h c hc
  exact ⟨hg.2.1, hg.2.2.1⟩

theorem C5_comment_ranges_witness :
    runMain exFallbackInput = .ok exFallbackOut ∧
    exFallbackComment ∈ exFallbackOut.comments ∧
    (1 ≤ exFallbackComment.startLine.getD exFallbackComment.line ∧
      exFallbackComment.startLine.getD exFallbackComment.line ≤ exFallbackComment.line) :=
  ⟨by decide, by decide,
   C5_comment_ranges exFallbackInput exFallbackOut (by decide) exFallbackComment (by decide)⟩

/-- **C10.** Every emitted inline comment anchors on the RIGHT side; a
single-line comment carries no `start_line`/`start_side`, while a multi-line
comment carries `start_line` (strictly below `line`) and
`start_side = "RIGHT"`. -/
theorem C10_comment_shape (inp : RunInput) (out : Payload) (h : runMain inp = .ok out) :
    ∀ c ∈ out.comments,
      c.side = "RIGHT".data ∧
      (c.startLine = none → c.startSide = none) ∧
      (∀ s, c.startLine = some s → c.startSide = some "RIGHT".data ∧ s < c.line) := by
  intro c hc
  have hg := runMain_comments_good inp out h c hc
  exact ⟨hg.1, hg.2.2.2.1, hg.2.2.2.2⟩

theorem C10_comment_shape_witness :
    runMain exMultiInput = .ok exMultiOut ∧
    exMultiComment ∈ exMultiOut.comments ∧
    exMultiComment.startLine = some 4 ∧
    (exMultiComment.side = "RIGHT".data ∧
      (exMultiComment.startLine = none → exMultiComment.startSide = none) ∧
      (∀ s, exMultiComment.startLine = some s →
        exMultiComment.startSide = some "RIGHT".data ∧ s < exMultiComment.line)) :=
  ⟨by decide, by decide, by decide,
   C10_comment_shape exMultiInput exMultiOut (by decide) exMultiComment (by decide)⟩

/-- The success of a run never depends on the clamping workspace: every file
probe is individually guarded, so an unreadable or missing file can only
skip clamping, never fail the run. -/
theorem runMain_isOk_fs_independent (inp : RunInput) (fs2 : Str → FileStat) :
    (runMain inp).isOk = (runMain { inp with fs := fs2 }).isOk := by
  unfold runMain
  cases hs : inp.sidecarFile with
  | none =>
    simp only [hs, fallbackRecords]
    by_cases hr : (inp.instanceFiles.filterMap
        (fun o => o.bind (fun j => if j.isObj then some j else none))).isEmpty
    · rw [if_pos hr, if_pos hr]
    · rw [if_neg hr, if_neg hr]
      have hcr2 : fallbackIntCrash
          { sidecarFile := none, instanceFiles := inp.instanceFiles, repo := inp.repo,
            sha := inp.sha, severities := inp.severities, maxComments := inp.maxComments,
            fs := fs2 } = fallbackIntCrash inp := rfl
      rw [hcr2]
      by_cases hcr : fallbackIntCrash inp = true
      · rw [if_pos hcr, if_pos hcr]
      · rw [if_neg hcr, if_neg hcr]
        rfl
  | some osc => cases osc <;> rfl

/-- **C8.** Clamping behaviour: with a readable target file of `n` lines the
end is clamped down to `n` and the finding is dropped exactly when its start
exceeds `n`; with a missing or unreadable file the range is unchanged; and a
read failure can never change whether the run succeeds. -/
theorem C8_clamping :
    (∀ (fs : Str → FileStat) (path : Str) (st en : Int) (n : Nat), fs path = .lines n →
        clampRange fs path st en =
          if st > (n : Int) then none
          else some (st, if en > (n : Int) then (n : Int) else en)) ∧
    (∀ (fs : Str → FileStat) (path : Str) (st en : Int),
        fs path = .absent ∨ fs path = .unreadable →
        clampRange fs path st en = some (st, en)) ∧
    (∀ (inp : RunInput) (fs2 : Str → FileStat),
        (runMain inp).isOk = (runMain { inp with fs := fs2 }).isOk) := by
  refine ⟨?_, ?_, runMain_isOk_fs_independent⟩
  · intro fs path st en n hfs
    unfold clampRange
    rw [hfs]
  · intro fs path st en hfs
    unfold clampRange
    rcases hfs with hfs | hfs <;> rw [hfs]

theorem C8_clamping_witness :
    clampRange (fun _ => FileStat.lines 5) "docs/a.mdx".data 2 9 =
      (if (2 : Int) > ((5 : Nat) : Int) then none
       else some (2, if (9 : Int) > ((5 : Nat) : Int) then ((5 : Nat) : Int) else 9)) ∧
    clampRange (fun _ => FileStat.unreadable) "docs/a.mdx".data 2 9 = some (2, 9) ∧
    (runMain exFallbackInput).isOk =
      (runMain { exFallbackInput with fs := fun _ => FileStat.lines 3 }).isOk :=
  ⟨C8_clamping.1 _ _ 2 9 5 rfl, C8_clamping.2.1 _ _ 2 9 (Or.inr rfl), C8_clamping.2.2 _ _⟩

/-- **C1 (amended).** A validator trailer whose fenced JSON fails to parse is
treated as not present (no trailer findings; the message still goes through
plain markdown parsing), but a sidecar file that exists and fails to parse
aborts the run.  A failed or absent trailer parse never aborts the run by
itself: a run with no trailer findings at all cannot hit the unguarded
`int()` coercions, so a sidecar-less run with per-agent records succeeds
whenever those coercions are safe — though not unconditionally, since a
successfully parsed trailer finding with a non-coercible `start`/`end` field
crashes the run uncaught. -/
theorem C1_trailer_absent_amended :
    (∀ (md g : Str), searchTrailerGroup md = some g → jsonParse g = none →
        parseTrailerFindings md = []) ∧
    (∀ inp : RunInput, inp.sidecarFile = some none →
        runMain inp = .error "Failed to read sidecar".data) ∧
    (∀ inp : RunInput, (fallbackCollect inp).trailerFindings.isEmpty = true →
        fallbackIntCrash inp = false) ∧
    (∀ inp : RunInput, inp.sidecarFile = none → (fallbackRecords inp).isEmpty = false →
        fallbackIntCrash inp = false → (runMain inp).isOk = true) := by
  refine ⟨?_, ?_, ?_, ?_⟩
  · intro md g h1 h2
    unfold parseTrailerFindings
    simp only [h1, h2]
  · intro inp h
    unfold runMain
    simp only [h]
  · intro inp h
    rw [List.isEmpty_iff] at h
    unfold fallbackIntCrash
    rw [h]
    simp [trailerByUid]
  · intro inp h hne hcr
    unfold runMain
    simp only [h, hne, hcr]
    rfl

theorem C1_trailer_absent_amended_witness :
    searchTrailerGroup exBadTrailerMsg = some "\x7bnot json\x7d".data ∧
    (jsonParse "\x7bnot json\x7d".data).isNone = true ∧
    parseTrailerFindings exBadTrailerMsg = [] ∧
    exC1Input.sidecarFile = some none ∧
    runMain exC1Input = .error "Failed to read sidecar".data ∧
    fallbackIntCrash exFallbackInput = false ∧
    (runMain exFallbackInput).isOk = true ∧
    fallbackIntCrash exBadIntInput = true ∧
    runMain exBadIntInput = .error "invalid literal for int()".data :=
  ⟨by decide, by decide,
   C1_trailer_absent_amended.1 exBadTrailerMsg "\x7bnot json\x7d".data (by decide)
     (Option.isNone_iff_eq_none.mp (by decide)),
   rfl,
   C1_trailer_absent_amended.2.1 exC1Input rfl,
   C1_trailer_absent_amended.2.2.1 exFallbackInput (by decide),
   C1_trailer_absent_amended.2.2.2 exFallbackInput rfl (by decide) (by decide),
   by decide, by decide⟩

/-- **C9 (amended).** A run directory with neither a sidecar nor any
per-agent record aborts with a non-zero exit before any output; a sidecar
file that exists but fails to parse aborts likewise. -/
theorem C9_abort_amended :
    (∀ inp : RunInput, inp.sidecarFile = none → (fallbackRecords inp).isEmpty = true →
        runMain inp =
          .error "No instance JSON files found in run dir and no sidecar present".data) ∧
    (∀ inp : RunInput, inp.sidecarFile = some none →
        runMain inp = .error "Failed to read sidecar".data) := by
  constructor
  · intro inp h hr
    unfold runMain
    simp only [h, hr]
    simp
  · intro inp h
    unfold runMain
    simp only [h]

theorem C9_abort_amended_witness :
    exEmptyInput.sidecarFile = none ∧ (fallbackRecords exEmptyInput).isEmpty = true ∧
    runMain exEmptyInput =
      .error "No instance JSON files found in run dir and no sidecar present".data ∧
    exC9Input.sidecarFile = some none ∧
    runMain exC9Input = .error "Failed to read sidecar".data :=
  ⟨rfl, by decide, C9_abort_amended.1 exEmptyInput rfl (by decide),
   rfl, C9_abort_amended.2 exC9Input rfl⟩

/-- **C7, counterexample.** A finding whose derived replacement mismatches
the selected range (2 replacement lines for a 3-line range) but whose raw
suggestion is deletion-only still gets a synthesized empty suggestion block
(flag true), although the claim predicts none (its synthesis clause requires
that no replacement was derived). -/
theorem C7_deletion_synthesis_cx :
    (parseFindings exC7Md).map (fun f => (renderParts f f.start f.endL).2) = [true] ∧
    (parseFindings exC7Md).map (fun f => claimC7Cond f f.start f.endL) = [false] :=
  ⟨by decide, by decide⟩

/-- **C7 (amended).** A fallback comment carries an applicable suggestion
block exactly when the derived replacement fits the range, or — whenever no
applicable block was emitted from the derived replacement, including a
derived but mismatched one — the raw suggestion is non-empty and
deletion-only; otherwise a non-empty raw suggestion appears as prose with
fenced blocks stripped. -/
theorem C7_suggestion_iff_amended (f : Finding) (st en : Int) :
    (renderParts f st en).2 = amendedC7Cond f st en ∧
    ((renderParts f st en).2 = false → (pyStrip f.suggestionRaw).isEmpty = false →
      pyStrip (stripFencedBlocks (removeJsonTrailers (pyStrip f.suggestionRaw))) ≠ [] →
      pyStrip (stripFencedBlocks (removeJsonTrailers (pyStrip f.suggestionRaw))) ∈
        (renderParts f st en).1) := by
  constructor
  · unfold renderParts amendedC7Cond replacementFits
    cases hrep : f.suggestionReplacement with
    | none =>
      by_cases hraw : (pyStrip f.suggestionRaw).isEmpty <;>
        by_cases hdel : deletionOnly f.suggestionRaw <;>
          simp [hraw, hdel]
    | some repl0 =>
      by_cases hfit : suggestionFits (rstripNL repl0) st en <;>
        by_cases hraw : (pyStrip f.suggestionRaw).isEmpty <;>
          by_cases hdel : deletionOnly f.suggestionRaw <;>
            simp [hfit, hraw, hdel]
  · intro hflag hraw hcl
    unfold renderParts at hflag ⊢
    cases hrep : f.suggestionReplacement with
    | none =>
      simp only [hrep] at hflag ⊢
      by_cases hdel : deletionOnly f.suggestionRaw <;>
        simp [hraw, hdel] at hflag ⊢ <;>
          simp [hcl]
    | some repl0 =>
      simp only [hrep] at hflag ⊢
      by_cases hfit : suggestionFits (rstripNL repl0) st en
      · simp [hfit] at hflag
      · by_cases hdel : deletionOnly f.suggestionRaw <;>
          simp [hfit, hraw, hdel] at hflag ⊢ <;>
            simp [hcl]

theorem C7_suggestion_iff_amended_witness :
    ((renderParts exC7ProseFinding 1 1).2 = false ∧
      (pyStrip exC7ProseFinding.suggestionRaw).isEmpty = false ∧
      pyStrip (stripFencedBlocks (removeJsonTrailers
        (pyStrip exC7ProseFinding.suggestionRaw))) ≠ []) ∧
    (renderParts exC7ProseFinding 1 1).2 = amendedC7Cond exC7ProseFinding 1 1 ∧
    pyStrip (stripFencedBlocks (removeJsonTrailers
      (pyStrip exC7ProseFinding.suggestionRaw))) ∈ (renderParts exC7ProseFinding 1 1).1 :=
  ⟨⟨by decide, by decide, by decide⟩,
   (C7_suggestion_iff_amended exC7ProseFinding 1 1).1,
   (C7_suggestion_iff_amended exC7ProseFinding 1 1).2 (by decide) (by decide) (by decide)⟩

/-- **C2 (amended).** The fallback path truncates the selected finding list
to `max(0, max_comments)` entries and keeps the retained prefix in order
(the capped list is a prefix of the uncapped selection); the sidecar path
ignores the configured maximum entirely; and in scenario D (50 valid parsed
findings, max-comments 40) exactly 40 comments are emitted, in discovery
order. -/
theorem C2_truncation_amended :
    (∀ inp : RunInput, (fallbackComments inp).length ≤ (max 0 inp.maxComments).toNat) ∧
    (∀ inp : RunInput, fallbackBase inp <+: fallbackSelected inp) ∧
    (∀ (inp : RunInput) (j : Json) (m : Int), inp.sidecarFile = some (some j) →
        runMain inp = runMain { inp with maxComments := m }) ∧
    ((runMain exScenDInput).toOption.map (fun p => p.comments.map Comment.path) =
      some exScenDExpectedPaths) := by
  refine ⟨?_, ?_, ?_, by decide⟩
  · intro inp
    calc (fallbackComments inp).length
        ≤ (fallbackBase inp).length := List.length_filterMap_le _ _
      _ ≤ (max 0 inp.maxComments).toNat := List.length_take_le _ _
  · intro inp
    exact List.take_prefix _ _
  · intro inp j m h
    unfold runMain
    simp only [h]

theorem C2_truncation_amended_witness :
    exC2Input.sidecarFile = some (some exSidecar41) ∧
    runMain exC2Input = runMain { exC2Input with maxComments := 0 } :=
  ⟨rfl, C2_truncation_amended.2.2.1 exC2Input exSidecar41 0 rfl⟩

/-! ## The default selection strategy (claim C6) -/

theorem specDedupeAux_fuel :
    ∀ (fuel1 fuel2 : Nat) (l : List Finding), l.length ≤ fuel1 → l.length ≤ fuel2 →
      specDedupeAux fuel1 l = specDedupeAux fuel2 l := by
  intro fuel1
  induction fuel1 with
  | zero =>
    intro fuel2 l h1 h2
    cases l with
    | nil => cases fuel2 <;> rfl
    | cons f rest => simp at h1
  | succ n ih =>
    intro fuel2 l h1 h2
    cases l with
    | nil => cases fuel2 <;> rfl
    | cons f rest =>
      cases fuel2 with
      | zero => simp at h2
      | succ m =>
        simp only [List.length_cons] at h1 h2
        simp only [specDedupeAux]
        congr 1
        exact ih m _ (le_trans (List.length_filter_le _ _) (by omega))
          (le_trans (List.length_filter_le _ _) (by omega))

theorem dedupeFindingsAux_eq_spec :
    ∀ (fuel : Nat) (l : List Finding) (seen : List (Str × Int × Int × Str)),
      l.length ≤ fuel →
      dedupeFindingsAux l seen =
        specDedupeAux fuel (l.filter (fun f => !(seen.any (fun k => decide (k = f.key))))) := by
  intro fuel
  induction fuel with
  | zero =>
    intro l seen h
    cases l with
    | nil => rfl
    | cons f rest => simp at h
  | succ n ih =>
    intro l seen h
    cases l with
    | nil => rfl
    | cons f rest =>
      simp only [List.length_cons] at h
      unfold dedupeFindingsAux
      by_cases hs : (seen.any (fun k => decide (k = f.key))) = true
      · rw [if_pos hs]
        rw [List.filter_cons_of_neg (by simp [hs])]
        rw [ih rest seen (by omega)]
        exact specDedupeAux_fuel n (n + 1) _
          (le_trans (List.length_filter_le _ _) (by omega))
          (le_trans (List.length_filter_le _ _) (by omega))
      · rw [if_neg hs]
        rw [List.filter_cons_of_pos (by simp [hs])]
        simp only [specDedupeAux]
        congr 1
        rw [ih rest (f.key :: seen) (by omega)]
        rw [List.filter_filter]
        have hfc : rest.filter
              (fun g => !((f.key :: seen).any (fun k => decide (k = g.key)))) =
            rest.filter (fun g =>
              (!decide (g.key = f.key)) && (!(seen.any (fun k => decide (k = g.key))))) := by
          refine List.filter_congr (fun g _ => ?_)
          simp only [List.any_cons, Bool.not_or]
          congr 1
          simp [decide_eq_decide, eq_comm]
        rw [hfc]

theorem dedupeFindings_eq_spec (l : List Finding) : dedupeFindings l = specDedupe l := by
  unfold dedupeFindings specDedupe
  rw [dedupeFindingsAux_eq_spec l.length l [] le_rfl]
  simp

theorem any_beq_eq_mem (sevs : List Str) (x : Str) :
    (sevs.any (fun s => s == x)) = decide (x ∈ sevs) := by
  induction sevs with
  | nil => rfl
  | cons a l ih =>
    simp only [List.any_cons, ih]
    by_cases hax : a = x
    · subst hax
      simp
    · have hx : ¬x = a := fun hh => hax hh.symm
      simp [hax, hx]

/-- **C6.** Under the default strategy (no sidecar and no composer-supplied
correlation ids) the emitted comments are exactly the renderings, in
discovery order, of the parsed findings filtered to the requested severity
set and then deduplicated on the composite key (first occurrence wins),
truncated to the configured maximum. -/
theorem C6_default_strategy (inp : RunInput) (out : Payload)
    (h : runMain inp = .ok out) (hs : inp.sidecarFile = none)
    (hids : (composerSelection (fallbackCollect inp).composerBody).2 = []) :
    out.comments =
      ((specDedupe (specFilterSev (includeSevs inp.severities) (fallbackFindings inp))).take
          (max 0 inp.maxComments).toNat).filterMap
        (fallbackComment (pyStrip inp.repo) (pyStrip inp.sha) inp.fs) := by
  have hout : out.comments = fallbackComments inp := by
    unfold runMain at h
    simp only [hs] at h
    by_cases hr : (fallbackRecords inp).isEmpty
    · rw [if_pos hr] at h
      exact Except.noConfusion h
    · rw [if_neg hr] at h
      by_cases hcr : fallbackIntCrash inp = true
      · rw [if_pos hcr] at h
        exact Except.noConfusion h
      · rw [if_neg hcr] at h
        cases Except.ok.inj h
        rfl
  rw [hout]
  unfold fallbackComments
  congr 1
  unfold fallbackBase capList
  congr 1
  unfold fallbackSelected selectFindings
  rw [hids]
  rw [if_neg (by simp)]
  rw [dedupeFindings_eq_spec]
  congr 1
  unfold specFilterSev
  exact List.filter_congr (fun g _ => any_beq_eq_mem _ _)

theorem C6_default_strategy_witness :
    (runMain exFallbackInput = .ok exFallbackOut ∧
      exFallbackInput.sidecarFile = none ∧
      (composerSelection (fallbackCollect exFallbackInput).composerBody).2 = []) ∧
    exFallbackOut.comments =
      ((specDedupe (specFilterSev (includeSevs exFallbackInput.severities)
          (fallbackFindings exFallbackInput))).take
        (max 0 exFallbackInput.maxComments).toNat).filterMap
      (fallbackComment (pyStrip exFallbackInput.repo) (pyStrip exFallbackInput.sha)
        exFallbackInput.fs) ∧
    exFallbackOut.comments.map Comment.path = ["docs/a.mdx".data] :=
  ⟨⟨by decide, rfl, by decide⟩,
   C6_default_strategy exFallbackInput exFallbackOut (by decide) rfl (by decide),
   by decide⟩

/-! ## Splitlines round-trip and scanner-identity lemmas (claim C3) -/

theorem pySplitlinesCore_nil (prevCR : Bool) (acc : Str) :
    pySplitlinesCore [] prevCR acc = if acc.isEmpty then [] else [acc.reverse] := rfl

theorem pySplitlinesCore_cons_nl (rest acc : Str) :
    pySplitlinesCore ('\n' :: rest) false acc =
      acc.reverse :: pySplitlinesCore rest false [] := by
  simp [pySplitlinesCore]

theorem pySplitlinesCore_cons_other (c : Char) (rest acc : Str)
    (hc : isLineBreak c = false) :
    pySplitlinesCore (c :: rest) false acc = pySplitlinesCore rest false (c :: acc) := by
  have hcn : ¬(c = '\n') := by
    intro h
    subst h
    exact absurd hc (by decide)
  simp only [pySplitlinesCore, if_neg hcn, hc, Bool.false_eq_true, if_false]

theorem pySplitlinesCore_ne_nil :
    ∀ (x acc : Str), x ≠ [] ∨ acc ≠ [] → pySplitlinesCore x false acc ≠ [] := by
  intro x
  induction x with
  | nil =>
    intro acc h
    rcases h with h | h
    · exact absurd rfl h
    · rw [pySplitlinesCore_nil]
      rw [if_neg (by simpa using h)]
      exact List.cons_ne_nil _ _
  | cons c rest ih =>
    intro acc _
    by_cases hcn : c = '\n'
    · subst hcn
      rw [pySplitlinesCore_cons_nl]
      exact List.cons_ne_nil _ _
    · by_cases hcb : isLineBreak c = true
      · simp only [pySplitlinesCore, if_neg hcn, hcb, if_true]
        exact List.cons_ne_nil _ _
      · have hcb' : isLineBreak c = false := by
          cases h : isLineBreak c
          · rfl
          · exact absurd h hcb
        rw [pySplitlinesCore_cons_other c rest acc hcb']
        exact ih (c :: acc) (Or.inr (List.cons_ne_nil _ _))

theorem joinNL_cons_of_ne_nil (l : Str) (ls : List Str) (h : ls ≠ []) :
    joinNL (l :: ls) = l ++ '\n' :: joinNL ls := by
  cases ls with
  | nil => exact absurd rfl h
  | cons l2 ls2 => rfl

theorem joinNL_core :
    ∀ (x : Str), (∀ c ∈ x, isLineBreak c = true → c = '\n') → noTrailingBreak x = true →
      ∀ acc, joinNL (pySplitlinesCore x false acc) = acc.reverse ++ x := by
  intro x
  induction x with
  | nil =>
    intro _ _ acc
    rw [pySplitlinesCore_nil]
    cases hacc : acc.isEmpty
    · rw [if_neg (by simp [hacc])]
      simp [joinNL]
    · rw [if_pos rfl]
      have : acc = [] := by simpa using hacc
      subst this
      rfl
  | cons c rest ih =>
    intro hnl hlast acc
    by_cases hcb : isLineBreak c = true
    · have hcn : c = '\n' := hnl c (by simp) hcb
      subst hcn
      have hrest : rest ≠ [] := by
        intro h
        subst h
        exact absurd hlast (by decide)
      obtain ⟨d, rest2, rfl⟩ := List.exists_cons_of_ne_nil hrest
      rw [pySplitlinesCore_cons_nl]
      rw [joinNL_cons_of_ne_nil _ _ (pySplitlinesCore_ne_nil _ [] (Or.inl (List.cons_ne_nil _ _)))]
      have hlast2 : noTrailingBreak (d :: rest2) = true := by
        unfold noTrailingBreak at hlast ⊢
        rw [List.getLast?_cons_cons] at hlast
        exact hlast
      rw [ih (fun e he hb => hnl e (List.mem_cons_of_mem _ he) hb) hlast2 []]
      simp
    · have hcb' : isLineBreak c = false := by
        cases h : isLineBreak c
        · rfl
        · exact absurd h hcb
      rw [pySplitlinesCore_cons_other c rest acc hcb']
      have hlast2 : noTrailingBreak rest = true := by
        cases rest with
        | nil => rfl
        | cons d rest2 =>
          unfold noTrailingBreak at hlast ⊢
          rw [List.getLast?_cons_cons] at hlast
          exact hlast
      rw [ih (fun e he hb => hnl e (List.mem_cons_of_mem _ he) hb) hlast2 (c :: acc)]
      simp

theorem joinNL_splitlines (x : Str) (hnl : onlyNLBreaks x = true)
    (hlast : noTrailingBreak x = true) : joinNL (pySplitlines x) = x := by
  have hnl2 : ∀ c ∈ x, isLineBreak c = true → c = '\n' := by
    intro c hm hb
    have h2 := (List.all_eq_true.mp hnl) c hm
    rw [hb] at h2
    simpa using h2
  simpa using joinNL_core x hnl2 hlast []

theorem hasSubstr_drop (pat : Str) :
    ∀ (i : Nat) (x : Str), hasSubstr pat x = false → hasSubstr pat (x.drop i) = false
  | 0, _, h => h
  | _ + 1, [], h => h
  | i + 1, c :: rest, h => by
    have h2 : hasSubstr pat rest = false := by
      simp only [hasSubstr] at h
      exact (Bool.or_eq_false_iff.mp h).2
    exact hasSubstr_drop pat i rest h2

theorem hasSubstr_of_prefix_drop (pat : Str) :
    ∀ (i : Nat) (x : Str), pat.isPrefixOf (x.drop i) = true → hasSubstr pat x = true
  | 0, [], h => by
    cases pat with
    | nil => rfl
    | cons p ps => exact absurd h (by simp [List.isPrefixOf])
  | 0, c :: rest, h => by
    rw [List.drop_zero] at h
    simp only [hasSubstr]
    rw [h]
    rfl
  | _ + 1, [], h => by
    cases pat with
    | nil => rfl
    | cons p ps => exact absurd h (by simp [List.isPrefixOf])
  | i + 1, c :: rest, h => by
    simp only [hasSubstr]
    rw [hasSubstr_of_prefix_drop pat i rest h]
    simp

theorem isPrefixOf_trans :
    ∀ {p1 p2 s : Str}, p1.isPrefixOf p2 = true → p2.isPrefixOf s = true →
      p1.isPrefixOf s = true
  | [], _, _, _, _ => by simp [List.isPrefixOf]
  | _ :: _, [], _, h1, _ => by simp [List.isPrefixOf] at h1
  | _ :: _, _ :: _, [], _, h2 => by simp [List.isPrefixOf] at h2
  | a :: as, b :: bs, c :: cs, h1, h2 => by
    simp only [List.isPrefixOf, Bool.and_eq_true, beq_iff_eq] at h1 h2 ⊢
    exact ⟨h1.1.trans h2.1, isPrefixOf_trans h1.2 h2.2⟩

theorem subScan_id (m : Str → Option (Nat × Str)) :
    ∀ (fuel : Nat) (cs : Str), (∀ i, m (cs.drop i) = none) → subScan m fuel cs = cs
  | 0, _, _ => rfl
  | _ + 1, [], _ => rfl
  | fuel + 1, c :: rest, h => by
    have h0 : m (c :: rest) = none := h 0
    simp only [subScan, h0]
    exact congrArg (List.cons c) (subScan_id m fuel rest (fun i => h (i + 1)))

theorem styleScanAux_id (repo : Str) :
    ∀ (fuel : Nat) (seenRev cs : Str), (∀ i, styleMatchLen (cs.drop i) = none) →
      styleScanAux repo fuel seenRev cs = cs
  | 0, _, _, _ => rfl
  | _ + 1, _, [], _ => rfl
  | fuel + 1, seenRev, c :: rest, h => by
    have h0 : styleMatchLen (c :: rest) = none := h 0
    simp only [styleScanAux, h0]
    exact congrArg (List.cons c)
      (styleScanAux_id repo fuel (c :: seenRev) rest (fun i => h (i + 1)))

theorem genericCore_none (cs : Str)
    (h : hasSubstr "?plain=1".data cs = false) : genericCore cs = none := by
  cases hp : "?plain=1#L".data.isPrefixOf (cs.drop (cs.takeWhile isPathChar).length) with
  | true =>
    have h8 : "?plain=1".data.isPrefixOf (cs.drop (cs.takeWhile isPathChar).length) = true :=
      isPrefixOf_trans (by decide) hp
    have h9 := hasSubstr_of_prefix_drop _ _ _ h8
    rw [h] at h9
    exact Bool.noConfusion h9
  | false =>
    unfold genericCore
    cases hrun : (cs.takeWhile isPathChar).isEmpty with
    | true => simp [hrun]
    | false =>
      cases hde : hasDocExt (cs.takeWhile isPathChar) with
      | true => simp [hrun, hde, hp]
      | false => simp [hrun, hde]

theorem genericMatchAt_none (repo sha cs : Str)
    (h : hasSubstr "?plain=1".data cs = false) : genericMatchAt repo sha cs = none := by
  have hc : ∀ i, genericCore (cs.drop i) = none :=
    fun i => genericCore_none _ (hasSubstr_drop _ i cs h)
  have h0 : genericCore cs = none := by
    have h1 := hc 0
    rwa [List.drop_zero] at h1
  unfold genericMatchAt
  simp [hc 8, hc 7, h0, Option.orElse]

theorem styleMatchLen_none (cs : Str)
    (h : hasSubstr "?plain=1".data cs = false) : styleMatchLen cs = none := by
  cases hp : "?plain=1#L".data.isPrefixOf (cs.drop styleRel.length) with
  | true =>
    have h8 : "?plain=1".data.isPrefixOf (cs.drop styleRel.length) = true :=
      isPrefixOf_trans (by decide) hp
    have h9 := hasSubstr_of_prefix_drop _ _ _ h8
    rw [h] at h9
    exact Bool.noConfusion h9
  | false =>
    unfold styleMatchLen
    cases hsr : styleRel.isPrefixOf cs with
    | true => simp [hsr, hp]
    | false => simp [hsr]

theorem fixDocMatchAt_none (repo sha cs : Str)
    (h : hasSubstr (blobPrefix repo) cs = false) : fixDocMatchAt repo sha cs = none := by
  cases hbp : (blobPrefix repo).isPrefixOf cs with
  | true =>
    have h9 := hasSubstr_of_prefix_drop (blobPrefix repo) 0 cs hbp
    rw [h] at h9
    exact Bool.noConfusion h9
  | false =>
    unfold fixDocMatchAt
    simp [hbp]

theorem locLine_id (repo sha line : Str)
    (h : locMarkers.any (fun m => m.isPrefixOf (pyLstrip line)) = false) :
    locLine repo sha line = line := by
  unfold locLine
  simp [h]

theorem absolutize_fixpoint (repo sha x : Str)
    (hfree : linkFreeText repo x = true) (hnl : onlyNLBreaks x = true)
    (hlast : noTrailingBreak x = true) :
    absolutizeLocationLinks repo sha x = x := by
  unfold linkFreeText at hfree
  rw [Bool.and_eq_true, Bool.and_eq_true] at hfree
  obtain ⟨⟨hq', hb'⟩, hloc⟩ := hfree
  have hq : hasSubstr "?plain=1".data x = false := by
    cases h : hasSubstr "?plain=1".data x
    · rfl
    · rw [h] at hq'
      exact absurd hq' (by decide)
  have hb : hasSubstr (blobPrefix repo) x = false := by
    cases h : hasSubstr (blobPrefix repo) x
    · rfl
    · rw [h] at hb'
      exact absurd hb' (by decide)
  unfold absolutizeLocationLinks
  by_cases he : (x.isEmpty || repo.isEmpty) = true
  · rw [if_pos he]
  · rw [if_neg he]
    have hmap : (pySplitlines x).map (locLine repo sha) = pySplitlines x := by
      have hid : ∀ l ∈ pySplitlines x, locLine repo sha l = l := by
        intro l hl
        apply locLine_id
        have h2 := (List.all_eq_true.mp (by unfold noLocMarkerLine at hloc; exact hloc)) l hl
        simpa using h2
      exact (List.map_congr_left hid).trans (List.map_id _)
    have hjoin : joinNL (pySplitlines x) = x := joinNL_splitlines x hnl hlast
    have hs2 : pySub (genericMatchAt repo sha) x = x :=
      subScan_id _ _ _ (fun i => genericMatchAt_none repo sha _ (hasSubstr_drop _ i x hq))
    have hs3 : styleScan repo x = x :=
      styleScanAux_id repo _ _ _ (fun i => styleMatchLen_none _ (hasSubstr_drop _ i x hq))
    have hs4 : pySub (fixDocMatchAt repo sha) x = x :=
      subScan_id _ _ _ (fun i => fixDocMatchAt_none repo sha _ (hasSubstr_drop _ i x hb))
    simp only [hmap, hjoin, hs2, hs3, hs4, ite_self]

/-- **C3 (amended).** The link-normalization transform is not idempotent in
general, but it is on link-free material: every text whose line breaks (if
any) are all plain `'\n'`, that does not end in a line-break character, and
that contains none of the rewritable reference material (no `?plain=1`
occurrence, no blob-URL prefix for the repository, and no `Location:`-marker
line) is a fixed point of the transform, so re-applying the transform to its
output leaves that output unchanged. -/
theorem C3_idempotent_amended (repo sha x : Str)
    (hfree : linkFreeText repo x = true) (hnl : onlyNLBreaks x = true)
    (hlast : noTrailingBreak x = true) :
    absolutizeLocationLinks repo sha (absolutizeLocationLinks repo sha x) =
        absolutizeLocationLinks repo sha x ∧
      absolutizeLocationLinks repo sha x = x := by
  have hfix := absolutize_fixpoint repo sha x hfree hnl hlast
  constructor
  · rw [hfix]
    exact hfix
  · exact hfix

theorem C3_idempotent_amended_witness :
    (linkFreeText "ton-org/docs".data exC3GoodText = true ∧
      onlyNLBreaks exC3GoodText = true ∧ noTrailingBreak exC3GoodText = true) ∧
    absolutizeLocationLinks "ton-org/docs".data "deadbeef".data
        (absolutizeLocationLinks "ton-org/docs".data "deadbeef".data exC3GoodText) =
      absolutizeLocationLinks "ton-org/docs".data "deadbeef".data exC3GoodText :=
  ⟨⟨by decide, by decide, by decide⟩,
   (C3_idempotent_amended "ton-org/docs".data "deadbeef".data exC3GoodText
      (by decide) (by decide) (by decide)).1⟩

end ReviewPayload
